import Mathlib

/-!
The deformer `ffdPlanar`, a 2x0x2 free-form deformation.

A shallow embedding of `src/FfdPlanarCpp/ffdPlanarNode.cpp`.

* C++ `double`/`float` values are elements of an arbitrary field `K`
  (linearly ordered where the code compares them), so that every definition can be
  evaluated over `ℚ` and every theorem also holds over `ℝ`: arithmetic is exact.
* C++ `int` is a signed 32-bit integer: a value of `ℤ` that every arithmetic operation
  reduces with `wrapInt32`; `/` on `int` is truncating division `Int.tdiv`.
* `for` loops are folds over the index range, threading the variables the loop body
  assigns.
-/

namespace ffdPlanar

/-! ## Compile-time dimensions -/

/-- Source: `#define FFD_DIMENSIONS_S 2`. -/
abbrev FFD_DIMENSIONS_S : ℕ := 2
/-- Source: `#define FFD_LATTICE_POINTS_S FFD_DIMENSIONS_S + 1`. -/
abbrev FFD_LATTICE_POINTS_S : ℕ := FFD_DIMENSIONS_S + 1
/-- Source: `#define FFD_DIMENSIONS_T 0`. -/
abbrev FFD_DIMENSIONS_T : ℕ := 0
/-- Source: `#define FFD_LATTICE_POINTS_T FFD_DIMENSIONS_T + 1`. -/
abbrev FFD_LATTICE_POINTS_T : ℕ := FFD_DIMENSIONS_T + 1
/-- Source: `#define FFD_DIMENSIONS_U 2`. -/
abbrev FFD_DIMENSIONS_U : ℕ := 2
/-- Source: `#define FFD_LATTICE_POINTS_U FFD_DIMENSIONS_U + 1`. -/
abbrev FFD_LATTICE_POINTS_U : ℕ := FFD_DIMENSIONS_U + 1

/-! ## Binomial coefficient and Bernstein polynomial -/

/-- The value of a signed 32-bit `int` holding the mathematical integer `x`: `x` reduced
modulo `2^32` into `[-2^31, 2^31 - 1]`. Every arithmetic operation on `int` in `nChooseK`
is followed by this reduction; values inside the range are left as they are. -/
def wrapInt32 (x : ℤ) : ℤ := (x + 2 ^ 31) % 2 ^ 32 - 2 ^ 31

/-- The variable `c` of `nChooseK` after `m` iterations of
`for (int i = 1; i <= k; i++) { c = c * (n - (k - i)); c = c / i; }`,
started from `int c = 1`, in 32-bit `int` arithmetic. Iteration number `m + 1` runs with
`i = m + 1`. -/
def nChooseKLoop (n k : ℤ) : ℕ → ℤ
  | 0 => 1
  | m + 1 =>
    wrapInt32
      ((wrapInt32 (nChooseKLoop n k m * wrapInt32 (n - wrapInt32 (k - ((m : ℤ) + 1))))).tdiv
        ((m : ℤ) + 1))

/-- The variable `c` of `nChooseK` in iteration `m + 1` (`i = m + 1`) between the two
statements of the loop body: the value stored by `c = c * (n - (k - i))`, which the
statement `c = c / i` then divides. -/
def nChooseKProduct (n k : ℤ) (m : ℕ) : ℤ :=
  wrapInt32 (nChooseKLoop n k m * wrapInt32 (n - wrapInt32 (k - ((m : ℤ) + 1))))

/-- Source: `int ffdPlanar::nChooseK( int n, int k )`, in 32-bit `int` arithmetic. The loop
runs for `i = 1, …, k`, that is `k` times (`k ≥ 0` once the guard has been passed). -/
def nChooseK (n k : ℤ) : ℤ :=
  if k < 0 ∨ k > n then 0
  else
    let k := if k > wrapInt32 (n - k) then wrapInt32 (n - k) else k
    nChooseKLoop n k k.toNat

/-- The recurrence of `nChooseK` on mathematical (unbounded) integers, for comparison with
the source: the value of `c` after `m` iterations when no operation is reduced to 32 bits.
The spec words it as "the multiplicative recurrence c ← c·(n−k+i)/i for i in [1,k]". -/
def nChooseKLoopExact (n k : ℤ) : ℕ → ℤ
  | 0 => 1
  | m + 1 => (nChooseKLoopExact n k m * (n - (k - ((m : ℤ) + 1)))).tdiv ((m : ℤ) + 1)

/-- The function `nChooseK` on mathematical (unbounded) integers, for comparison with the
source: the same guard and the same choice of "the smaller of k and n−k", with the loop
`nChooseKLoopExact`. -/
def nChooseKExact (n k : ℤ) : ℤ :=
  if k < 0 ∨ k > n then 0
  else
    let k := if k > n - k then n - k else k
    nChooseKLoopExact n k k.toNat

/-- Source: `double ffdPlanar::bernsteinPoly( int i, int n, double s )`,
`nChooseK(n, i) * pow(1 - s, (n - i)) * pow(s, i)`. `pow` with an integer exponent is the
integer power of the field. -/
def bernsteinPoly {K : Type} [Field K] (i n : ℤ) (s : K) : K :=
  (nChooseK n i : K) * (1 - s) ^ (n - i) * s ^ i

/-! ## Points and vectors -/

/-- Modelled from the spec: the Maya class `MVector` is not part of the sources. The spec
has "a 3D displacement/offset, double precision; supports addition and scalar
multiplication". -/
structure MVector (K : Type) where
  x : K
  y : K
  z : K
deriving DecidableEq, Repr

/-- Modelled from the spec: the Maya class `MPoint` is not part of the sources. The spec
has "a 3D coordinate (x, y, z), double precision"; the homogeneous coordinate `w` of Maya
is `1` throughout this program and is left out. -/
structure MPoint (K : Type) where
  x : K
  y : K
  z : K
deriving DecidableEq, Repr

namespace MVector

variable {K : Type} [Field K]

/-- The default constructor `MVector()`: the zero vector. -/
def zero : MVector K := ⟨0, 0, 0⟩

/-- The operator `MVector + MVector` (as used by `+=`). -/
def add (a b : MVector K) : MVector K := ⟨a.x + b.x, a.y + b.y, a.z + b.z⟩

/-- The operator `MVector * double`. -/
def mulScalar (v : MVector K) (d : K) : MVector K := ⟨v.x * d, v.y * d, v.z * d⟩

/-- The operator `double * MVector`. -/
def scalarMul (d : K) (v : MVector K) : MVector K := ⟨d * v.x, d * v.y, d * v.z⟩

end MVector

namespace MPoint

variable {K : Type} [Field K]

/-- The constant `MPoint::origin`, also the default constructor `MPoint()`. -/
def origin : MPoint K := ⟨0, 0, 0⟩

/-- The operator `MPoint + MVector` (as used by `+=`). -/
def addVector (p : MPoint K) (v : MVector K) : MPoint K := ⟨p.x + v.x, p.y + v.y, p.z + v.z⟩

/-- The operator `MPoint - MPoint`, a vector. -/
def sub (p q : MPoint K) : MVector K := ⟨p.x - q.x, p.y - q.y, p.z - q.z⟩

end MPoint

/-! ## The lattice evaluator -/

/-- The array type
`MVector [FFD_LATTICE_POINTS_S][FFD_LATTICE_POINTS_T][FFD_LATTICE_POINTS_U]`. -/
abbrev Lattice (K : Type) : Type :=
  Fin FFD_LATTICE_POINTS_S → Fin FFD_LATTICE_POINTS_T → Fin FFD_LATTICE_POINTS_U → MVector K

/-- The three accumulators of `getDeformedPoint`. -/
structure FfdAcc (K : Type) where
  ffd1 : MPoint K
  ffd2 : MVector K
  ffd3 : MVector K

section Evaluator

variable {K : Type} [Field K]

/-- The body of the innermost loop of `getDeformedPoint` (over `k`):
`ffd3 += lattice[i][j][k] * bernstein_u`. -/
def bodyU (point : MPoint K) (lattice : Lattice K)
    (i : Fin FFD_LATTICE_POINTS_S) (j : Fin FFD_LATTICE_POINTS_T) (acc : FfdAcc K)
    (k : Fin FFD_LATTICE_POINTS_U) : FfdAcc K :=
  let bernstein_u := bernsteinPoly ((k : ℕ) : ℤ) (FFD_DIMENSIONS_U : ℤ) point.z
  ⟨acc.ffd1, acc.ffd2, acc.ffd3.add ((lattice i j k).mulScalar bernstein_u)⟩

/-- The innermost loop of `getDeformedPoint`, `k = 0, …, FFD_LATTICE_POINTS_U - 1`. -/
def loopU (point : MPoint K) (lattice : Lattice K)
    (i : Fin FFD_LATTICE_POINTS_S) (j : Fin FFD_LATTICE_POINTS_T) (acc : FfdAcc K) : FfdAcc K :=
  (List.finRange FFD_LATTICE_POINTS_U).foldl (bodyU point lattice i j) acc

/-- The body of the middle loop of `getDeformedPoint` (over `j`): runs the `k` loop, then
`ffd2 += ffd3 * bernstein_t` and resets `ffd3` to zero. -/
def bodyT (point : MPoint K) (lattice : Lattice K)
    (i : Fin FFD_LATTICE_POINTS_S) (acc : FfdAcc K) (j : Fin FFD_LATTICE_POINTS_T) : FfdAcc K :=
  let acc := loopU point lattice i j acc
  let bernstein_t := bernsteinPoly ((j : ℕ) : ℤ) (FFD_DIMENSIONS_T : ℤ) point.y
  ⟨acc.ffd1, acc.ffd2.add (acc.ffd3.mulScalar bernstein_t), ⟨0, 0, 0⟩⟩

/-- The middle loop of `getDeformedPoint`, `j = 0, …, FFD_LATTICE_POINTS_T - 1`. -/
def loopT (point : MPoint K) (lattice : Lattice K)
    (i : Fin FFD_LATTICE_POINTS_S) (acc : FfdAcc K) : FfdAcc K :=
  (List.finRange FFD_LATTICE_POINTS_T).foldl (bodyT point lattice i) acc

/-- The body of the outer loop of `getDeformedPoint` (over `i`): runs the `j` loop, then
`ffd1 += ffd2 * bernstein_s` and resets `ffd2` to zero. -/
def bodyS (point : MPoint K) (lattice : Lattice K) (acc : FfdAcc K)
    (i : Fin FFD_LATTICE_POINTS_S) : FfdAcc K :=
  let acc := loopT point lattice i acc
  let bernstein_s := bernsteinPoly ((i : ℕ) : ℤ) (FFD_DIMENSIONS_S : ℤ) point.x
  ⟨acc.ffd1.addVector (acc.ffd2.mulScalar bernstein_s), ⟨0, 0, 0⟩, acc.ffd3⟩

/-- The outer loop of `getDeformedPoint`, `i = 0, …, FFD_LATTICE_POINTS_S - 1`. -/
def loopS (point : MPoint K) (lattice : Lattice K) (acc : FfdAcc K) : FfdAcc K :=
  (List.finRange FFD_LATTICE_POINTS_S).foldl (bodyS point lattice) acc

/-- Source: `MPoint ffdPlanar::getDeformedPoint( MPoint& point, MVector (& lattice)[…][…][…] )`.
The parametric coordinates `s`, `t`, `u` of `point` are its fields `x`, `y`, `z`. -/
def getDeformedPoint (point : MPoint K) (lattice : Lattice K) : MPoint K :=
  (loopS point lattice ⟨MPoint.origin, MVector.zero, MVector.zero⟩).ffd1

end Evaluator

/-! ## Bounding box and the transformation into parametric space -/

/-- Modelled from the spec: the Maya class `MBoundingBox` is not part of the sources. The
spec describes it as an "axis-aligned min/max corner pair over a point set" with derived
attributes width, height and depth, built by expanding "an empty box over every point".
The flag `isEmpty` records that no point has been added yet; the corners of an empty box
are at the origin. -/
structure MBoundingBox (K : Type) where
  min : MPoint K
  max : MPoint K
  isEmpty : Bool
deriving DecidableEq, Repr

namespace MBoundingBox

variable {K : Type} [LinearOrderedField K]

/-- Modelled from the spec: the default constructor `MBoundingBox()` gives the "empty box"
that `getBoundingBox` expands over every point. -/
def empty : MBoundingBox K := ⟨MPoint.origin, MPoint.origin, true⟩

/-- Modelled from the spec: `expand` enlarges the box so that it contains the point; the
first point added to an empty box becomes both corners. -/
def expand (b : MBoundingBox K) (p : MPoint K) : MBoundingBox K :=
  if b.isEmpty then ⟨p, p, false⟩
  else
    ⟨⟨Min.min b.min.x p.x, Min.min b.min.y p.y, Min.min b.min.z p.z⟩,
     ⟨Max.max b.max.x p.x, Max.max b.max.y p.y, Max.max b.max.z p.z⟩, false⟩

/-- Modelled from the spec: the x-extent of the box. -/
def width (b : MBoundingBox K) : K := b.max.x - b.min.x

/-- Modelled from the spec: the y-extent of the box. -/
def height (b : MBoundingBox K) : K := b.max.y - b.min.y

/-- Modelled from the spec: the z-extent of the box. -/
def depth (b : MBoundingBox K) : K := b.max.z - b.min.z

end MBoundingBox

/-- Modelled from the spec: the Maya class `MMatrix` is not part of the sources. Only
matrices made of a per-axis scale and a translation occur in this program; such a matrix
is kept as its diagonal and its translation row. -/
structure MMatrix (K : Type) where
  diag : MVector K
  offset : MVector K
deriving DecidableEq, Repr

/-- Modelled from the spec: the operator `MPoint * MMatrix`, a point (row vector, `w = 1`)
times a matrix of a per-axis scale and a translation. -/
def MPoint.mulMatrix {K : Type} [Field K] (p : MPoint K) (m : MMatrix K) : MPoint K :=
  ⟨p.x * m.diag.x + m.offset.x, p.y * m.diag.y + m.offset.y, p.z * m.diag.z + m.offset.z⟩

/-- Modelled from the spec: the Maya class `MTransformationMatrix` is not part of the
sources. The spec calls it "a similarity transform (diagonal scale + translation) with a
forward form (world→parametric) and an explicit inverse (parametric→world)". -/
structure MTransformationMatrix (K : Type) where
  scale : MVector K
  translation : MVector K
deriving DecidableEq, Repr

namespace MTransformationMatrix

variable {K : Type} [Field K]

/-- Modelled from the spec: the default constructor `MTransformationMatrix()` gives the
identity transformation, scale `1` and translation `0`. -/
def identity : MTransformationMatrix K := ⟨⟨1, 1, 1⟩, ⟨0, 0, 0⟩⟩

/-- Modelled from the spec: `addScale( scale, MSpace::kObject )` scales the scale
component of the transformation by the given factors. -/
def addScale (t : MTransformationMatrix K) (scale : MVector K) : MTransformationMatrix K :=
  { t with scale := ⟨t.scale.x * scale.x, t.scale.y * scale.y, t.scale.z * scale.z⟩ }

/-- Modelled from the spec: `addTranslation( vector, MSpace::kObject )` adds the vector to
the translation component of the transformation. -/
def addTranslation (t : MTransformationMatrix K) (v : MVector K) : MTransformationMatrix K :=
  { t with translation := t.translation.add v }

/-- Modelled from the spec: `asMatrix()`, the forward matrix. The spec has the translation
"applied before scale, i.e. the transform first shifts the box's minimum corner to the
coordinate origin and then scales by the per-axis factor": a point `p` goes to
`(p + translation) * scale`, so the matrix has the scale on its diagonal and
`translation * scale` as its translation row. -/
def asMatrix (t : MTransformationMatrix K) : MMatrix K :=
  ⟨t.scale,
   ⟨t.translation.x * t.scale.x, t.translation.y * t.scale.y, t.translation.z * t.scale.z⟩⟩

/-- Modelled from the spec: `asMatrixInverse()`, where "the inverse transform must be
derivable exactly (not approximated) from the same scale/translation values": a point `q`
goes to `q / scale - translation`. -/
def asMatrixInverse (t : MTransformationMatrix K) : MMatrix K :=
  ⟨⟨1 / t.scale.x, 1 / t.scale.y, 1 / t.scale.z⟩,
   ⟨-t.translation.x, -t.translation.y, -t.translation.z⟩⟩

end MTransformationMatrix

/-- Source: `MTransformationMatrix ffdPlanar::getXyzToStuTransformation( MBoundingBox& )`. -/
def getXyzToStuTransformation {K : Type} [LinearOrderedField K]
    (boundingBox : MBoundingBox K) : MTransformationMatrix K :=
  let transform : MTransformationMatrix K := MTransformationMatrix.identity
  let scale : MVector K :=
    ⟨if FFD_DIMENSIONS_S > 0 then 1 / boundingBox.width else 1,
     if FFD_DIMENSIONS_T > 0 then 1 / boundingBox.height else 1,
     if FFD_DIMENSIONS_U > 0 then 1 / boundingBox.depth else 1⟩
  let transform := transform.addScale scale
  let boundsMinOffset : MVector K := MPoint.origin.sub boundingBox.min
  let transform := transform.addTranslation boundsMinOffset
  transform

/-! ## The deformer -/

/-- The status codes of the Maya class `MStatus`. The macro `MCheckErr` of the source turns
every code other than `kSuccess` into `kFailure`. -/
inductive MStatus where
  | kSuccess
  | kFailure
  | kInsufficientMemory
  | kInvalidParameter
  | kLicenseFailure
  | kUnknownParameter
  | kNotImplemented
  | kNotFound
  | kEndOfFile
deriving DecidableEq, Repr

/-- What `deform` and `getBoundingBox` read from the node's `MDataBlock`: the three lattice
rows and the envelope, each with the status of its `inputValue` call, and the input mesh
with the status of the `MFnMesh` constructor and the points returned by `getPoints`. -/
structure MDataBlock (K : Type) where
  row1Status : MStatus
  row1 : MVector K
  row2Status : MStatus
  row2 : MVector K
  row3Status : MStatus
  row3 : MVector K
  envStatus : MStatus
  env : K
  meshStatus : MStatus
  meshPoints : List (MPoint K)

section Deformer

variable {K : Type} [LinearOrderedField K]

/-- Source: `MStatus ffdPlanar::getBoundingBox( MDataBlock&, unsigned int, MBoundingBox& )`.
Returns the status and the value of `boundingBoxOut` on return. -/
def getBoundingBox (block : MDataBlock K) (boundingBoxOut : MBoundingBox K) :
    MStatus × MBoundingBox K :=
  let status := block.meshStatus
  if MStatus.kSuccess ≠ status then (MStatus.kFailure, boundingBoxOut)
  else
    let boundingBox := block.meshPoints.foldl MBoundingBox.expand MBoundingBox.empty
    (status, boundingBox)

/-- The initializer of the array `lattice` in `deform`. -/
def deformLattice (row1Vector row2Vector row3Vector : MVector K) : Lattice K :=
  ![![![⟨0, row1Vector.x, 0⟩, ⟨0, row1Vector.y, 1 / 2⟩, ⟨0, row1Vector.z, 1⟩]],
    ![![⟨1 / 2, row2Vector.x, 0⟩, ⟨1 / 2, row2Vector.y, 1 / 2⟩, ⟨1 / 2, row2Vector.z, 1⟩]],
    ![![⟨1, row3Vector.x, 0⟩, ⟨1, row3Vector.y, 1 / 2⟩, ⟨1, row3Vector.z, 1⟩]]]

/-- The body of the loop over the geometry in `deform`: the new position of the point
`pt`. -/
def deformPoint (transformMatrix inverseMatrix : MMatrix K) (lattice : Lattice K) (env : K)
    (pt : MPoint K) : MPoint K :=
  let ptStu := pt.mulMatrix transformMatrix
  let deformed := (getDeformedPoint ptStu lattice).mulMatrix inverseMatrix
  if env ≠ 1 then
    let diff := deformed.sub pt
    pt.addVector (MVector.scalarMul env diff)
  else deformed

/-- Source: `MStatus ffdPlanar::deform( MDataBlock&, MItGeometry&, const MMatrix&, unsigned int )`.
The geometry iterator is the list `iter` of the positions it visits; the result is the
returned status and the positions after the call. -/
def deform (block : MDataBlock K) (iter : List (MPoint K)) : MStatus × List (MPoint K) :=
  if MStatus.kSuccess ≠ block.row1Status then (MStatus.kFailure, iter) else
  let row1Vector := block.row1
  if MStatus.kSuccess ≠ block.row2Status then (MStatus.kFailure, iter) else
  let row2Vector := block.row2
  if MStatus.kSuccess ≠ block.row3Status then (MStatus.kFailure, iter) else
  let row3Vector := block.row3
  if MStatus.kSuccess ≠ block.envStatus then (MStatus.kFailure, iter) else
  let env := block.env
  let lattice := deformLattice row1Vector row2Vector row3Vector
  let (status, boundingBox) := getBoundingBox block MBoundingBox.empty
  if MStatus.kSuccess ≠ status then (MStatus.kFailure, iter) else
  let transform := getXyzToStuTransformation boundingBox
  let transformMatrix := transform.asMatrix
  let inverseMatrix := transform.asMatrixInverse
  (status, iter.map (deformPoint transformMatrix inverseMatrix lattice env))

/-- All the reads of `deform` and `getBoundingBox` from the data block succeed. -/
def MDataBlock.allSucceed (block : MDataBlock K) : Prop :=
  block.row1Status = MStatus.kSuccess ∧ block.row2Status = MStatus.kSuccess ∧
  block.row3Status = MStatus.kSuccess ∧ block.envStatus = MStatus.kSuccess ∧
  block.meshStatus = MStatus.kSuccess

/-- Component `k` of a vector: `x` for `k = 0`, `y` for `k = 1`, `z` for `k = 2`. -/
def MVector.component (v : MVector K) (k : Fin 3) : K := ![v.x, v.y, v.z] k

/-- The height named by the claims about `deform`: the sum over `r`, `k` in `0..2` of
(component `k` of row `r + 1`) `* bernsteinPoly(r, 2, s) * bernsteinPoly(k, 2, u)`. -/
def blendedHeight (row1 row2 row3 : MVector K) (s u : K) : K :=
  ∑ r : Fin 3, ∑ k : Fin 3,
    (![row1, row2, row3] r).component k
      * bernsteinPoly ((r : ℕ) : ℤ) 2 s * bernsteinPoly ((k : ℕ) : ℤ) 2 u

/-- The data block with the envelope replaced by `e` (same rows, same mesh). -/
def MDataBlock.withEnvelope (block : MDataBlock K) (e : K) : MDataBlock K :=
  ⟨block.row1Status, block.row1, block.row2Status, block.row2, block.row3Status, block.row3,
    block.envStatus, e, block.meshStatus, block.meshPoints⟩

/-- The least of the nine row components `row1.x, …, row3.z`. -/
def minRowComponent (row1 row2 row3 : MVector K) : K :=
  min row1.x (min row1.y (min row1.z (min row2.x (min row2.y (min row2.z
    (min row3.x (min row3.y row3.z)))))))

/-- The greatest of the nine row components `row1.x, …, row3.z`. -/
def maxRowComponent (row1 row2 row3 : MVector K) : K :=
  max row1.x (max row1.y (max row1.z (max row2.x (max row2.y (max row2.z
    (max row3.x (max row3.y row3.z)))))))

end Deformer

/-! ## Concrete inputs -/

/-- A data block over `ℚ` whose reads all succeed. -/
def sampleBlock (row1 row2 row3 : MVector ℚ) (env : ℚ) (meshPoints : List (MPoint ℚ)) :
    MDataBlock ℚ :=
  ⟨MStatus.kSuccess, row1, MStatus.kSuccess, row2, MStatus.kSuccess, row3, MStatus.kSuccess,
    env, MStatus.kSuccess, meshPoints⟩

/-- A mesh whose bounding box is the unit cube `[0,0,0]-[1,1,1]`. -/
def unitCubeMesh : List (MPoint ℚ) := [⟨0, 0, 0⟩, ⟨1, 1, 1⟩]

/-- A mesh whose bounding box is `[2,3,4]-[4,7,5]`. -/
def sampleMesh : List (MPoint ℚ) := [⟨2, 3, 5⟩, ⟨4, 7, 4⟩, ⟨3, 5, 4⟩]

/-- The bounding box `[2,3,4]-[4,7,5]`, of width `2`, height `4` and depth `1`. -/
def sampleBox : MBoundingBox ℚ := ⟨⟨2, 3, 4⟩, ⟨4, 7, 5⟩, false⟩

/-! ## Properties of `nChooseK` and `bernsteinPoly` -/

/-- After `m ≤ k` iterations on natural arguments `k ≤ n` the variable `c` of the
recurrence on unbounded integers is the binomial coefficient `C(n - k + m, m)`. -/
theorem nChooseKLoopExact_eq_choose (n k : ℕ) (hk : k ≤ n) :
    ∀ m : ℕ, m ≤ k → nChooseKLoopExact (n : ℤ) (k : ℤ) m = ((n - k + m).choose m : ℕ) := by
  intro m
  induction m with
  | zero => intro _; simp [nChooseKLoopExact]
  | succ m ih =>
    intro hm
    have hc := ih (Nat.le_of_succ_le hm)
    have hfac : (n : ℤ) - ((k : ℤ) - ((m : ℤ) + 1)) = ((n - k + m + 1 : ℕ) : ℤ) := by
      push_cast [Nat.cast_sub hk]
      ring
    have hmul : (((n - k + m).choose m : ℕ) : ℤ) * ((n - k + m + 1 : ℕ) : ℤ)
        = (((n - k + (m + 1)).choose (m + 1) : ℕ) : ℤ) * ((m : ℤ) + 1) := by
      have h := Nat.succ_mul_choose_eq (n - k + m) m
      have h2 : (n - k + m).choose m * (n - k + m + 1)
          = (n - k + (m + 1)).choose (m + 1) * (m + 1) := by
        rw [Nat.mul_comm]
        exact h
      exact_mod_cast h2
    have hne : ((m : ℤ) + 1) ≠ 0 := by positivity
    show (nChooseKLoopExact (n : ℤ) (k : ℤ) m * ((n : ℤ) - ((k : ℤ) - ((m : ℤ) + 1)))).tdiv
        ((m : ℤ) + 1) = _
    rw [hc, hfac, hmul, Int.mul_tdiv_cancel _ hne]

/-- On natural arguments the function on unbounded integers is the binomial coefficient
(which is `0` for `k > n`). -/
theorem nChooseKExact_natCast (n k : ℕ) :
    nChooseKExact (n : ℤ) (k : ℤ) = (n.choose k : ℕ) := by
  unfold nChooseKExact
  by_cases hkn : k ≤ n
  · have h1 : ¬ ((k : ℤ) < 0 ∨ (k : ℤ) > n) := by
      push_neg
      exact ⟨by positivity, by exact_mod_cast hkn⟩
    rw [if_neg h1]
    by_cases h2 : (k : ℤ) > (n : ℤ) - k
    · simp only [h2, if_true]
      have hsub : (n : ℤ) - (k : ℤ) = ((n - k : ℕ) : ℤ) := by
        rw [Nat.cast_sub hkn]
      rw [hsub, Int.toNat_ofNat,
        nChooseKLoopExact_eq_choose n (n - k) (Nat.sub_le n k) (n - k) le_rfl]
      have h3 : n - (n - k) + (n - k) = n := by omega
      rw [h3, Nat.choose_symm hkn]
    · simp only [h2, if_false]
      rw [Int.toNat_ofNat, nChooseKLoopExact_eq_choose n k hkn k le_rfl]
      have h3 : n - k + k = n := by omega
      rw [h3]
  · have h1 : ((k : ℤ) < 0 ∨ (k : ℤ) > n) := by
      right
      push_neg at hkn
      exact_mod_cast hkn
    rw [if_pos h1, Nat.choose_eq_zero_of_lt (by omega)]
    rfl

/-- The check of every `0 ≤ k ≤ n ≤ 29`: the 32-bit result is the exact result, and in
every iteration the product before the division and the value of `c` after it lie in
`[0, 2^31 - 1]`. -/
theorem nChooseK_int32_check :
    ∀ n : Fin 30, ∀ k : Fin 30, k.val ≤ n.val →
      nChooseK (n.val : ℤ) (k.val : ℤ) = nChooseKExact (n.val : ℤ) (k.val : ℤ) ∧
      ∀ m : Fin 15, m.val < min k.val (n.val - k.val) →
        0 ≤ nChooseKLoopExact (n.val : ℤ) ((min k.val (n.val - k.val) : ℕ) : ℤ) m.val
              * ((n.val : ℤ) - (((min k.val (n.val - k.val) : ℕ) : ℤ) - ((m.val : ℤ) + 1))) ∧
        nChooseKLoopExact (n.val : ℤ) ((min k.val (n.val - k.val) : ℕ) : ℤ) m.val
              * ((n.val : ℤ) - (((min k.val (n.val - k.val) : ℕ) : ℤ) - ((m.val : ℤ) + 1)))
            ≤ 2 ^ 31 - 1 ∧
        0 ≤ nChooseKLoopExact (n.val : ℤ) ((min k.val (n.val - k.val) : ℕ) : ℤ) (m.val + 1) ∧
        nChooseKLoopExact (n.val : ℤ) ((min k.val (n.val - k.val) : ℕ) : ℤ) (m.val + 1)
            ≤ 2 ^ 31 - 1 := by
  decide!

/-- The check of every `0 ≤ k ≤ n ≤ 29`: in every iteration of the source's loop the stored
product and the value of `c` after the division are those of the recurrence on unbounded
integers, and the loop runs with `k' = min(k, n - k)`. -/
theorem nChooseKLoop_int32_check :
    ∀ n : Fin 30, ∀ k : Fin 30, k.val ≤ n.val →
      nChooseK (n.val : ℤ) (k.val : ℤ)
        = nChooseKLoop (n.val : ℤ) ((min k.val (n.val - k.val) : ℕ) : ℤ)
            (min k.val (n.val - k.val)) ∧
      ∀ m : Fin 15, m.val < min k.val (n.val - k.val) →
        nChooseKProduct (n.val : ℤ) ((min k.val (n.val - k.val) : ℕ) : ℤ) m.val
          = nChooseKLoopExact (n.val : ℤ) ((min k.val (n.val - k.val) : ℕ) : ℤ) m.val
              * ((n.val : ℤ) - (((min k.val (n.val - k.val) : ℕ) : ℤ) - ((m.val : ℤ) + 1))) ∧
        nChooseKLoop (n.val : ℤ) ((min k.val (n.val - k.val) : ℕ) : ℤ) (m.val + 1)
          = nChooseKLoopExact (n.val : ℤ) ((min k.val (n.val - k.val) : ℕ) : ℤ)
              (m.val + 1) := by
  decide!

/-- For `n ≤ 29` the source's `nChooseK` on natural arguments is the binomial coefficient
(which is `0` for `k > n`). -/
theorem nChooseK_natCast (n k : ℕ) (hn : n ≤ 29) :
    nChooseK (n : ℤ) (k : ℤ) = (n.choose k : ℕ) := by
  by_cases hkn : k ≤ n
  · rw [(nChooseK_int32_check ⟨n, by omega⟩ ⟨k, by omega⟩ hkn).1]
    exact nChooseKExact_natCast n k
  · have h1 : ((k : ℤ) < 0 ∨ (k : ℤ) > n) := by
      right
      push_neg at hkn
      exact_mod_cast hkn
    unfold nChooseK
    rw [if_pos h1, Nat.choose_eq_zero_of_lt (by omega)]
    rfl

/-- For `0 ≤ i ≤ n ≤ 29` the Bernstein polynomial is `C(n, i) * (1 - s)^(n - i) * s^i`
with natural powers. -/
theorem bernsteinPoly_natCast {K : Type} [Field K] (i n : ℕ) (hi : i ≤ n) (hn : n ≤ 29)
    (s : K) :
    bernsteinPoly (i : ℤ) (n : ℤ) s = (n.choose i : K) * (1 - s) ^ (n - i) * s ^ i := by
  unfold bernsteinPoly
  rw [nChooseK_natCast n i hn, ← Nat.cast_sub hi, zpow_natCast, zpow_natCast]
  norm_cast

/-! ## The lattice evaluator is the tensor-product Bernstein sum -/

theorem finRange_points_three : List.finRange (2 + 1) = [0, 1, 2] := by decide

theorem finRange_points_one : List.finRange (0 + 1) = [0] := by decide

/-- The `k` loop is three passes of its body. -/
theorem loopU_eq {K : Type} [Field K] (p : MPoint K) (L : Lattice K)
    (i : Fin FFD_LATTICE_POINTS_S) (j : Fin FFD_LATTICE_POINTS_T) (acc : FfdAcc K) :
    loopU p L i j acc = bodyU p L i j (bodyU p L i j (bodyU p L i j acc 0) 1) 2 := by
  unfold loopU
  rw [show List.finRange FFD_LATTICE_POINTS_U = [0, 1, 2] from finRange_points_three]
  rfl

/-- The `j` loop is one pass of its body. -/
theorem loopT_eq {K : Type} [Field K] (p : MPoint K) (L : Lattice K)
    (i : Fin FFD_LATTICE_POINTS_S) (acc : FfdAcc K) :
    loopT p L i acc = bodyT p L i acc 0 := by
  unfold loopT
  rw [show List.finRange FFD_LATTICE_POINTS_T = [0] from finRange_points_one]
  rfl

/-- The `i` loop is three passes of its body. -/
theorem loopS_eq {K : Type} [Field K] (p : MPoint K) (L : Lattice K) (acc : FfdAcc K) :
    loopS p L acc = bodyS p L (bodyS p L (bodyS p L acc 0) 1) 2 := by
  unfold loopS
  rw [show List.finRange FFD_LATTICE_POINTS_S = [0, 1, 2] from finRange_points_three]
  rfl

/-- C1. For every parametric point `p = (s, t, u)` and every 3x1x3 lattice `L`, the result
of `getDeformedPoint`, computed by the nested loops with the accumulators `ffd3`, `ffd2`,
`ffd1` and their resets, is componentwise the triple sum over `i` in `0..2`, `j` in `0..0`,
`k` in `0..2` of
`L[i][j][k] * bernsteinPoly(i, 2, s) * bernsteinPoly(j, 0, t) * bernsteinPoly(k, 2, u)`. -/
theorem getDeformedPoint_eq_triple_sum {K : Type} [Field K] (p : MPoint K) (L : Lattice K) :
    (getDeformedPoint p L).x
        = ∑ i : Fin 3, ∑ j : Fin 1, ∑ k : Fin 3,
            (L i j k).x * bernsteinPoly ((i : ℕ) : ℤ) 2 p.x
              * bernsteinPoly ((j : ℕ) : ℤ) 0 p.y * bernsteinPoly ((k : ℕ) : ℤ) 2 p.z
    ∧ (getDeformedPoint p L).y
        = ∑ i : Fin 3, ∑ j : Fin 1, ∑ k : Fin 3,
            (L i j k).y * bernsteinPoly ((i : ℕ) : ℤ) 2 p.x
              * bernsteinPoly ((j : ℕ) : ℤ) 0 p.y * bernsteinPoly ((k : ℕ) : ℤ) 2 p.z
    ∧ (getDeformedPoint p L).z
        = ∑ i : Fin 3, ∑ j : Fin 1, ∑ k : Fin 3,
            (L i j k).z * bernsteinPoly ((i : ℕ) : ℤ) 2 p.x
              * bernsteinPoly ((j : ℕ) : ℤ) 0 p.y * bernsteinPoly ((k : ℕ) : ℤ) 2 p.z := by
  simp only [getDeformedPoint, loopS_eq, bodyS, loopT_eq, bodyT, loopU_eq, bodyU,
    MPoint.addVector, MVector.add, MVector.mulScalar, MPoint.origin, MVector.zero,
    Fin.sum_univ_three, Fin.sum_univ_one, Fin.val_zero, Fin.val_one, Fin.val_two,
    Nat.cast_zero, Nat.cast_one, Nat.cast_ofNat, Fin.isValue]
  refine ⟨?_, ?_, ?_⟩ <;> ring

/-! ## C3: `nChooseK` and the binomial coefficient -/

/-- The binomial coefficient `C(30, 15) = 30! / (15! 15!) = 155117520`. -/
theorem choose_thirty_fifteen : Nat.choose 30 15 = 155117520 := by
  rw [Nat.choose_eq_factorial_div_factorial (by decide)]
  decide!

/-- C3 fails as stated: at `n = 30`, `k = 15` the product `77558760 * 30` of the last
iteration does not fit the 32-bit `int`, and `nChooseK(30, 15)` is `-131213633`, not the
binomial coefficient `30! / (15! 15!) = 155117520`. -/
theorem nChooseK_eq_binomial_counterexample :
    (0 : ℤ) ≤ 15 ∧ (15 : ℤ) ≤ 30 ∧ nChooseK 30 15 = -131213633 ∧
    Nat.factorial 30 / (Nat.factorial 15 * Nat.factorial (30 - 15)) = 155117520 ∧
    nChooseK 30 15
      ≠ ((Nat.factorial 30 / (Nat.factorial 15 * Nat.factorial (30 - 15)) : ℕ) : ℤ) := by
  decide!

/-- C3, amended. For all integers `n` and `k`, `nChooseK(n, k) = 0` whenever `k < 0` or
`k > n`; and for every `0 ≤ k ≤ n ≤ 29`, where no product of the loop leaves the 32-bit
`int`, `nChooseK(n, k)` is the standard binomial coefficient `n! / (k! (n-k)!)`; this covers
in particular every `0 ≤ k ≤ n ≤ 10`. -/
theorem nChooseK_eq_binomial (n k : ℤ) :
    ((k < 0 ∨ k > n) → nChooseK n k = 0) ∧
    (0 ≤ k → k ≤ n → n ≤ 29 →
      nChooseK n k
        = ((n.toNat.factorial / (k.toNat.factorial * (n.toNat - k.toNat).factorial) : ℕ) : ℤ)) := by
  refine ⟨fun h => by simp [nChooseK, h], fun hk hkn hn29 => ?_⟩
  have hn : 0 ≤ n := le_trans hk hkn
  have hle : k.toNat ≤ n.toNat := Int.toNat_le_toNat hkn
  have hn29' : n.toNat ≤ 29 := by omega
  have h := nChooseK_natCast n.toNat k.toNat hn29'
  rw [Int.toNat_of_nonneg hn, Int.toNat_of_nonneg hk] at h
  rw [h, Nat.choose_eq_factorial_div_factorial hle]

/-- C3, amended, at `n = 10`, `k = 3`: `nChooseK(10, 3) = 10! / (3! 7!) = 120`. -/
theorem nChooseK_eq_binomial_witness :
    (0 : ℤ) ≤ 3 ∧ (3 : ℤ) ≤ 10 ∧ (10 : ℤ) ≤ 29 ∧ nChooseK 10 3 = 120 :=
  ⟨by decide, by decide, by decide,
    ((nChooseK_eq_binomial 10 3).2 (by decide) (by decide) (by decide)).trans (by decide)⟩

/-! ## C2: partition of unity -/

/-- At `t = 1/2` every Bernstein polynomial of degree 30 is its coefficient over `2^30`. -/
theorem bernsteinPoly_thirty_half (i : ℕ) (hi : i ≤ 30) :
    bernsteinPoly (i : ℤ) ((30 : ℕ) : ℤ) (1 / 2 : ℚ)
      = (nChooseK ((30 : ℕ) : ℤ) (i : ℤ) : ℚ) / 1073741824 := by
  unfold bernsteinPoly
  have hhalf : (1 - 1 / 2 : ℚ) = 1 / 2 := by norm_num
  have hne : (1 / 2 : ℚ) ≠ 0 := by norm_num
  rw [hhalf, mul_assoc, ← zpow_add₀ hne, ← Nat.cast_sub hi]
  have hexp : (((30 - i : ℕ) : ℤ) + (i : ℤ)) = ((30 : ℕ) : ℤ) := by
    rw [← Nat.cast_add, Nat.sub_add_cancel hi]
  rw [hexp, zpow_natCast]
  norm_num
  ring

/-- The coefficients `nChooseK(30, i)`, `i = 0..30`, add up to `787410671`, not to
`2^30 = 1073741824`. -/
theorem nChooseK_thirty_sum :
    ∑ i ∈ Finset.range (30 + 1), nChooseK ((30 : ℕ) : ℤ) (i : ℤ) = 787410671 := by
  decide!

/-- C2 fails as stated: for the degree `d = 30` and `t = 1/2` the sum over `i = 0..30` of
`bernsteinPoly(i, 30, t)` is `787410671 / 1073741824`, not `1`, because the coefficient
`nChooseK(30, 15)` overflows the 32-bit `int`. -/
theorem bernsteinPoly_partition_of_unity_counterexample :
    ∑ i ∈ Finset.range (30 + 1), bernsteinPoly (i : ℤ) ((30 : ℕ) : ℤ) (1 / 2 : ℚ)
      = 787410671 / 1073741824 ∧
    ∑ i ∈ Finset.range (30 + 1), bernsteinPoly (i : ℤ) ((30 : ℕ) : ℤ) (1 / 2 : ℚ) ≠ 1 := by
  have hsum : ∑ i ∈ Finset.range (30 + 1), bernsteinPoly (i : ℤ) ((30 : ℕ) : ℤ) (1 / 2 : ℚ)
      = 787410671 / 1073741824 := by
    have hterm : ∑ i ∈ Finset.range (30 + 1),
          bernsteinPoly (i : ℤ) ((30 : ℕ) : ℤ) (1 / 2 : ℚ)
        = ∑ i ∈ Finset.range (30 + 1),
            (nChooseK ((30 : ℕ) : ℤ) (i : ℤ) : ℚ) / 1073741824 :=
      Finset.sum_congr rfl fun i hi =>
        bernsteinPoly_thirty_half i (Nat.lt_succ_iff.mp (Finset.mem_range.mp hi))
    rw [hterm, ← Finset.sum_div, ← Int.cast_sum, nChooseK_thirty_sum]
    norm_num
  refine ⟨hsum, ?_⟩
  rw [hsum]
  norm_num

/-- C2, amended. Partition of unity: for every degree `0 ≤ d ≤ 29`, where `nChooseK` stays
inside the 32-bit `int`, and every `t`, the sum over `i = 0..d` of `bernsteinPoly(i, d, t)`
is `1`; for `d = 2`, `t = 0.3` the values are `0.49`, `0.42`, `0.09`, whose sum is `1`. -/
theorem bernsteinPoly_partition_of_unity {K : Type} [LinearOrderedField K] :
    (∀ (d : ℕ) (t : K), d ≤ 29 →
      ∑ i ∈ Finset.range (d + 1), bernsteinPoly (i : ℤ) (d : ℤ) t = 1) ∧
    (bernsteinPoly 0 2 (3 / 10 : K) = 49 / 100 ∧ bernsteinPoly 1 2 (3 / 10 : K) = 42 / 100 ∧
      bernsteinPoly 2 2 (3 / 10 : K) = 9 / 100 ∧ (49 / 100 + 42 / 100 + 9 / 100 : K) = 1) := by
  constructor
  · intro d t hd
    have hsum : ∑ i ∈ Finset.range (d + 1), bernsteinPoly (i : ℤ) (d : ℤ) t
        = ∑ i ∈ Finset.range (d + 1), t ^ i * (1 - t) ^ (d - i) * (d.choose i : K) := by
      refine Finset.sum_congr rfl fun i hi => ?_
      rw [bernsteinPoly_natCast i d (Nat.lt_succ_iff.mp (Finset.mem_range.mp hi)) hd]
      ring
    rw [hsum, ← add_pow]
    simp
  · have h0 := bernsteinPoly_natCast 0 2 (by decide) (by decide) (3 / 10 : K)
    have h1 := bernsteinPoly_natCast 1 2 (by decide) (by decide) (3 / 10 : K)
    have h2 := bernsteinPoly_natCast 2 2 (by decide) (by decide) (3 / 10 : K)
    simp only [Nat.cast_zero, Nat.cast_one, Nat.cast_ofNat] at h0 h1 h2
    refine ⟨?_, ?_, ?_, by norm_num⟩
    · rw [h0]; norm_num [Nat.choose]
    · rw [h1]; norm_num [Nat.choose]
    · rw [h2]; norm_num [Nat.choose]

/-- C2, amended, at the largest degree `d = 29` and `t = 3/10`. -/
theorem bernsteinPoly_partition_of_unity_witness :
    (29 : ℕ) ≤ 29 ∧
    ∑ i ∈ Finset.range (29 + 1), bernsteinPoly (i : ℤ) ((29 : ℕ) : ℤ) (3 / 10 : ℚ) = 1 :=
  ⟨le_rfl, bernsteinPoly_partition_of_unity.1 29 (3 / 10 : ℚ) le_rfl⟩

/-! ## C4, C5: the transformation into parametric space -/

/-- The scale and the translation that `getXyzToStuTransformation` stores. -/
theorem getXyzToStuTransformation_eq {K : Type} [LinearOrderedField K] (box : MBoundingBox K) :
    getXyzToStuTransformation box
      = ⟨⟨1 * (1 / box.width), 1 * 1, 1 * (1 / box.depth)⟩,
         ⟨0 + (0 - box.min.x), 0 + (0 - box.min.y), 0 + (0 - box.min.z)⟩⟩ := by
  simp [getXyzToStuTransformation, MTransformationMatrix.identity,
    MTransformationMatrix.addScale, MTransformationMatrix.addTranslation, MVector.add,
    MPoint.sub, MPoint.origin]

/-- C4. For every bounding box with nonzero width and nonzero depth, the forward transform
built by `getXyzToStuTransformation` first shifts by `origin - box.min` and then scales by
`(1/width, 1, 1/depth)`; it maps `box.min` to `s = 0`, `u = 0`, maps `box.max` to `s = 1`,
`u = 1`, and maps every point inside the box to `s` and `u` in `[0, 1]`; on the
non-subdivided T axis the scale is `1`. -/
theorem getXyzToStuTransformation_forward {K : Type} [LinearOrderedField K]
    (box : MBoundingBox K) (hw : box.width ≠ 0) (hd : box.depth ≠ 0) :
    (∀ p : MPoint K,
      p.mulMatrix (getXyzToStuTransformation box).asMatrix
        = ⟨(p.x + (0 - box.min.x)) * (1 / box.width), (p.y + (0 - box.min.y)) * 1,
           (p.z + (0 - box.min.z)) * (1 / box.depth)⟩) ∧
    (box.min.mulMatrix (getXyzToStuTransformation box).asMatrix).x = 0 ∧
    (box.min.mulMatrix (getXyzToStuTransformation box).asMatrix).z = 0 ∧
    (box.max.mulMatrix (getXyzToStuTransformation box).asMatrix).x = 1 ∧
    (box.max.mulMatrix (getXyzToStuTransformation box).asMatrix).z = 1 ∧
    (∀ p : MPoint K, box.min.x ≤ p.x → p.x ≤ box.max.x → box.min.z ≤ p.z → p.z ≤ box.max.z →
      0 ≤ (p.mulMatrix (getXyzToStuTransformation box).asMatrix).x ∧
      (p.mulMatrix (getXyzToStuTransformation box).asMatrix).x ≤ 1 ∧
      0 ≤ (p.mulMatrix (getXyzToStuTransformation box).asMatrix).z ∧
      (p.mulMatrix (getXyzToStuTransformation box).asMatrix).z ≤ 1) ∧
    (getXyzToStuTransformation box).scale.y = 1 := by
  have hform : ∀ p : MPoint K,
      p.mulMatrix (getXyzToStuTransformation box).asMatrix
        = ⟨(p.x + (0 - box.min.x)) * (1 / box.width), (p.y + (0 - box.min.y)) * 1,
           (p.z + (0 - box.min.z)) * (1 / box.depth)⟩ := by
    intro p
    rw [getXyzToStuTransformation_eq]
    simp only [MPoint.mulMatrix, MTransformationMatrix.asMatrix, MPoint.mk.injEq]
    refine ⟨?_, ?_, ?_⟩ <;> ring
  have hw1 : (box.max.x - box.min.x) ≠ 0 := hw
  have hd1 : (box.max.z - box.min.z) ≠ 0 := hd
  refine ⟨hform, ?_, ?_, ?_, ?_, ?_, ?_⟩
  · rw [hform]; simp
  · rw [hform]; simp
  · rw [hform]
    show (box.max.x + (0 - box.min.x)) * (1 / (box.max.x - box.min.x)) = 1
    field_simp
    ring
  · rw [hform]
    show (box.max.z + (0 - box.min.z)) * (1 / (box.max.z - box.min.z)) = 1
    field_simp
    ring
  · intro p hx1 hx2 hz1 hz2
    rw [hform]
    have hwpos : 0 < box.max.x - box.min.x :=
      lt_of_le_of_ne (sub_nonneg.mpr (le_trans hx1 hx2)) (Ne.symm hw1)
    have hdpos : 0 < box.max.z - box.min.z :=
      lt_of_le_of_ne (sub_nonneg.mpr (le_trans hz1 hz2)) (Ne.symm hd1)
    show 0 ≤ (p.x + (0 - box.min.x)) * (1 / (box.max.x - box.min.x)) ∧
      (p.x + (0 - box.min.x)) * (1 / (box.max.x - box.min.x)) ≤ 1 ∧
      0 ≤ (p.z + (0 - box.min.z)) * (1 / (box.max.z - box.min.z)) ∧
      (p.z + (0 - box.min.z)) * (1 / (box.max.z - box.min.z)) ≤ 1
    rw [mul_one_div, mul_one_div, div_le_one hwpos, div_le_one hdpos]
    refine ⟨div_nonneg (by linarith) hwpos.le, by linarith,
      div_nonneg (by linarith) hdpos.le, by linarith⟩
  · rw [getXyzToStuTransformation_eq]
    simp

/-- C5. Round trip: for every bounding box with nonzero width and depth (the height is not
scaled) and every point `P`, applying the forward matrix of the transform built from the
box and then its inverse matrix returns `P`; both matrices come from the one scale
`(1/width, 1, 1/depth)` and the one translation `origin - box.min` of the transform. -/
theorem getXyzToStuTransformation_round_trip {K : Type} [LinearOrderedField K]
    (box : MBoundingBox K) (hw : box.width ≠ 0) (hd : box.depth ≠ 0) (P : MPoint K) :
    (P.mulMatrix (getXyzToStuTransformation box).asMatrix).mulMatrix
        (getXyzToStuTransformation box).asMatrixInverse = P ∧
    (getXyzToStuTransformation box).asMatrix
      = ⟨(getXyzToStuTransformation box).scale,
         ⟨(getXyzToStuTransformation box).translation.x * (getXyzToStuTransformation box).scale.x,
          (getXyzToStuTransformation box).translation.y * (getXyzToStuTransformation box).scale.y,
          (getXyzToStuTransformation box).translation.z
            * (getXyzToStuTransformation box).scale.z⟩⟩ ∧
    (getXyzToStuTransformation box).asMatrixInverse
      = ⟨⟨1 / (getXyzToStuTransformation box).scale.x, 1 / (getXyzToStuTransformation box).scale.y,
          1 / (getXyzToStuTransformation box).scale.z⟩,
         ⟨-(getXyzToStuTransformation box).translation.x,
          -(getXyzToStuTransformation box).translation.y,
          -(getXyzToStuTransformation box).translation.z⟩⟩ ∧
    (getXyzToStuTransformation box).scale = ⟨1 / box.width, 1, 1 / box.depth⟩ ∧
    (getXyzToStuTransformation box).translation
      = ⟨0 - box.min.x, 0 - box.min.y, 0 - box.min.z⟩ := by
  refine ⟨?_, rfl, rfl, ?_, ?_⟩
  · rw [getXyzToStuTransformation_eq]
    cases P with
    | mk px py pz =>
      simp only [MPoint.mulMatrix, MTransformationMatrix.asMatrix,
        MTransformationMatrix.asMatrixInverse, MPoint.mk.injEq]
      refine ⟨?_, ?_, ?_⟩
      · field_simp
      · field_simp
      · field_simp
  · rw [getXyzToStuTransformation_eq]; simp
  · rw [getXyzToStuTransformation_eq]; simp

/-- C4 on the box `[2,3,4]-[4,7,5]`: the corner `box.max` goes to `s = 1`, `u = 1`, and
the point `(3, 5, 4)` goes to `(1/2, 2, 0)`. -/
theorem getXyzToStuTransformation_forward_witness :
    sampleBox.width ≠ 0 ∧ sampleBox.depth ≠ 0 ∧
    (sampleBox.max.mulMatrix (getXyzToStuTransformation sampleBox).asMatrix).x = 1 ∧
    (sampleBox.max.mulMatrix (getXyzToStuTransformation sampleBox).asMatrix).z = 1 ∧
    (⟨3, 5, 4⟩ : MPoint ℚ).mulMatrix (getXyzToStuTransformation sampleBox).asMatrix
      = ⟨1 / 2, 2, 0⟩ := by
  have hw : sampleBox.width ≠ 0 := by norm_num [sampleBox, MBoundingBox.width]
  have hd : sampleBox.depth ≠ 0 := by norm_num [sampleBox, MBoundingBox.depth]
  refine ⟨hw, hd, (getXyzToStuTransformation_forward sampleBox hw hd).2.2.2.1,
    (getXyzToStuTransformation_forward sampleBox hw hd).2.2.2.2.1, ?_⟩
  rw [(getXyzToStuTransformation_forward sampleBox hw hd).1]
  norm_num [sampleBox, MBoundingBox.width, MBoundingBox.depth]

/-- C5 on the box `[2,3,4]-[4,7,5]` and the point `(3, 5, -2)` outside it. -/
theorem getXyzToStuTransformation_round_trip_witness :
    sampleBox.width ≠ 0 ∧ sampleBox.depth ≠ 0 ∧
    ((⟨3, 5, -2⟩ : MPoint ℚ).mulMatrix (getXyzToStuTransformation sampleBox).asMatrix).mulMatrix
        (getXyzToStuTransformation sampleBox).asMatrixInverse = ⟨3, 5, -2⟩ := by
  have hw : sampleBox.width ≠ 0 := by norm_num [sampleBox, MBoundingBox.width]
  have hd : sampleBox.depth ≠ 0 := by norm_num [sampleBox, MBoundingBox.depth]
  exact ⟨hw, hd, (getXyzToStuTransformation_round_trip sampleBox hw hd ⟨3, 5, -2⟩).1⟩

/-! ## The deformer, point by point -/

theorem bernsteinPoly_zero_zero {K : Type} [Field K] (t : K) : bernsteinPoly 0 0 t = 1 := by
  have h := bernsteinPoly_natCast 0 0 le_rfl (by decide) t
  simpa using h

theorem bernsteinPoly_zero_two {K : Type} [Field K] (t : K) :
    bernsteinPoly 0 2 t = (1 - t) ^ 2 := by
  have h := bernsteinPoly_natCast 0 2 (by decide) (by decide) t
  simpa using h

theorem bernsteinPoly_one_two {K : Type} [Field K] (t : K) :
    bernsteinPoly 1 2 t = 2 * (1 - t) * t := by
  have h := bernsteinPoly_natCast 1 2 (by decide) (by decide) t
  simpa using h

theorem bernsteinPoly_two_two {K : Type} [Field K] (t : K) : bernsteinPoly 2 2 t = t ^ 2 := by
  have h := bernsteinPoly_natCast 2 2 (by decide) (by decide) t
  simpa using h

/-- On the lattice built by `deform` the evaluator returns the parametric `s` and `u` of
its argument and the blended height; the parametric `t` of the argument is not used. -/
theorem getDeformedPoint_deformLattice {K : Type} [LinearOrderedField K]
    (row1 row2 row3 : MVector K) (q : MPoint K) :
    getDeformedPoint q (deformLattice row1 row2 row3)
      = ⟨q.x, blendedHeight row1 row2 row3 q.x q.z, q.z⟩ := by
  simp only [getDeformedPoint, loopS_eq, bodyS, loopT_eq, bodyT, loopU_eq, bodyU,
    MPoint.addVector, MVector.add, MVector.mulScalar, MPoint.origin, MVector.zero,
    blendedHeight, MVector.component, deformLattice,
    Fin.sum_univ_three, Fin.val_zero, Fin.val_one, Fin.val_two,
    Nat.cast_zero, Nat.cast_one, Nat.cast_ofNat, Fin.isValue,
    Matrix.cons_val_zero, Matrix.cons_val_one, Matrix.cons_val_two, Matrix.head_cons,
    Matrix.tail_cons, bernsteinPoly_zero_zero, bernsteinPoly_zero_two, bernsteinPoly_one_two,
    bernsteinPoly_two_two, MPoint.mk.injEq]
  refine ⟨?_, ?_, ?_⟩ <;> ring

/-- When every read succeeds, `deform` succeeds and moves each point by `deformPoint`,
with the matrices of the transform of the mesh's bounding box. -/
theorem deform_eq_map {K : Type} [LinearOrderedField K] (block : MDataBlock K)
    (hok : block.allSucceed) (iter : List (MPoint K)) :
    deform block iter
      = (MStatus.kSuccess,
          iter.map (deformPoint
            (getXyzToStuTransformation (getBoundingBox block MBoundingBox.empty).2).asMatrix
            (getXyzToStuTransformation
              (getBoundingBox block MBoundingBox.empty).2).asMatrixInverse
            (deformLattice block.row1 block.row2 block.row3) block.env)) := by
  obtain ⟨h1, h2, h3, h4, h5⟩ := hok
  simp [deform, getBoundingBox, h1, h2, h3, h4, h5]

/-- The new position of a point: `x` and `z` are kept and the height moves from `pt.y`
towards `box.min.y` plus the blended height at the parametric `(s, u)` of the point, by the
fraction `env`. -/
theorem deformPoint_eq {K : Type} [LinearOrderedField K] (box : MBoundingBox K)
    (hw : box.width ≠ 0) (hd : box.depth ≠ 0) (row1 row2 row3 : MVector K) (env : K)
    (pt : MPoint K) :
    deformPoint (getXyzToStuTransformation box).asMatrix
        (getXyzToStuTransformation box).asMatrixInverse (deformLattice row1 row2 row3) env pt
      = ⟨pt.x,
         pt.y + env * (box.min.y
           + blendedHeight row1 row2 row3
               (pt.mulMatrix (getXyzToStuTransformation box).asMatrix).x
               (pt.mulMatrix (getXyzToStuTransformation box).asMatrix).z - pt.y),
         pt.z⟩ := by
  simp only [deformPoint, getDeformedPoint_deformLattice]
  generalize hH : blendedHeight row1 row2 row3
    (pt.mulMatrix (getXyzToStuTransformation box).asMatrix).x
    (pt.mulMatrix (getXyzToStuTransformation box).asMatrix).z = H
  rw [getXyzToStuTransformation_eq]
  by_cases he : env = 1
  · subst he
    simp only [ne_eq, not_true_eq_false, if_false, MPoint.mulMatrix,
      MTransformationMatrix.asMatrix, MTransformationMatrix.asMatrixInverse, MPoint.mk.injEq]
    refine ⟨?_, ?_, ?_⟩
    · field_simp
    · ring
    · field_simp
  · simp only [ne_eq, he, not_false_eq_true, if_true, MPoint.mulMatrix,
      MTransformationMatrix.asMatrix, MTransformationMatrix.asMatrixInverse, MPoint.sub,
      MPoint.addVector, MVector.scalarMul, MPoint.mk.injEq]
    refine ⟨?_, ?_, ?_⟩
    · field_simp
    · ring
    · field_simp

theorem blendedHeight_zero {K : Type} [LinearOrderedField K] (s u : K) :
    blendedHeight (⟨0, 0, 0⟩ : MVector K) ⟨0, 0, 0⟩ ⟨0, 0, 0⟩ s u = 0 := by
  simp [blendedHeight, MVector.component, Fin.sum_univ_three]

/-! ## C6: the zero lattice -/

/-- C6 fails as stated: with all three rows zero, envelope `1` and the unit cube as mesh
(width and depth `1`), `deform` moves the corner `(1, 1, 1)` to `(1, 0, 1)`. -/
theorem deform_zero_lattice_counterexample :
    (sampleBlock ⟨0, 0, 0⟩ ⟨0, 0, 0⟩ ⟨0, 0, 0⟩ 1 unitCubeMesh).allSucceed ∧
    (getBoundingBox (sampleBlock ⟨0, 0, 0⟩ ⟨0, 0, 0⟩ ⟨0, 0, 0⟩ 1 unitCubeMesh)
      MBoundingBox.empty).2.width ≠ 0 ∧
    (getBoundingBox (sampleBlock ⟨0, 0, 0⟩ ⟨0, 0, 0⟩ ⟨0, 0, 0⟩ 1 unitCubeMesh)
      MBoundingBox.empty).2.depth ≠ 0 ∧
    deform (sampleBlock ⟨0, 0, 0⟩ ⟨0, 0, 0⟩ ⟨0, 0, 0⟩ 1 unitCubeMesh) unitCubeMesh
      = (MStatus.kSuccess, [⟨0, 0, 0⟩, ⟨1, 0, 1⟩]) ∧
    deform (sampleBlock ⟨0, 0, 0⟩ ⟨0, 0, 0⟩ ⟨0, 0, 0⟩ 1 unitCubeMesh) unitCubeMesh
      ≠ (MStatus.kSuccess, unitCubeMesh) := by
  have hrun : deform (sampleBlock ⟨0, 0, 0⟩ ⟨0, 0, 0⟩ ⟨0, 0, 0⟩ 1 unitCubeMesh) unitCubeMesh
      = (MStatus.kSuccess, [⟨0, 0, 0⟩, ⟨1, 0, 1⟩]) := by
    norm_num [deform, sampleBlock, getBoundingBox, unitCubeMesh, MBoundingBox.expand,
      MBoundingBox.empty, getXyzToStuTransformation, MTransformationMatrix.identity,
      MTransformationMatrix.addScale, MTransformationMatrix.addTranslation,
      MTransformationMatrix.asMatrix, MTransformationMatrix.asMatrixInverse, MVector.add,
      MPoint.sub, MPoint.origin, MBoundingBox.width, MBoundingBox.height, MBoundingBox.depth,
      deformPoint, MPoint.mulMatrix, getDeformedPoint, loopS_eq, bodyS, loopT_eq, bodyT,
      loopU_eq, bodyU, MPoint.addVector, MVector.mulScalar, MVector.zero, deformLattice,
      bernsteinPoly_zero_zero, bernsteinPoly_zero_two, bernsteinPoly_one_two,
      bernsteinPoly_two_two]
  refine ⟨⟨rfl, rfl, rfl, rfl, rfl⟩, ?_, ?_, hrun, ?_⟩
  · norm_num [sampleBlock, getBoundingBox, unitCubeMesh, MBoundingBox.expand,
      MBoundingBox.empty, MBoundingBox.width]
  · norm_num [sampleBlock, getBoundingBox, unitCubeMesh, MBoundingBox.expand,
      MBoundingBox.empty, MBoundingBox.depth]
  · rw [hrun]
    norm_num [unitCubeMesh]

/-- C6, amended. If `row1 = row2 = row3 = (0,0,0)` then, for every point set whose bounding
box has nonzero width and depth and for every envelope value `env`, `deform` keeps the `x`
and `z` of each point `P` and returns the height `P.y + env * (box.min.y - P.y)`; hence
every point whose height is the box's minimum height is returned unchanged. -/
theorem deform_zero_lattice {K : Type} [LinearOrderedField K] (block : MDataBlock K)
    (hok : block.allSucceed)
    (hrows : block.row1 = ⟨0, 0, 0⟩ ∧ block.row2 = ⟨0, 0, 0⟩ ∧ block.row3 = ⟨0, 0, 0⟩)
    (hw : (getBoundingBox block MBoundingBox.empty).2.width ≠ 0)
    (hd : (getBoundingBox block MBoundingBox.empty).2.depth ≠ 0) (iter : List (MPoint K)) :
    deform block iter
      = (MStatus.kSuccess,
          iter.map fun P =>
            ⟨P.x, P.y + block.env * ((getBoundingBox block MBoundingBox.empty).2.min.y - P.y),
              P.z⟩) ∧
    ((∀ P ∈ iter, P.y = (getBoundingBox block MBoundingBox.empty).2.min.y) →
      deform block iter = (MStatus.kSuccess, iter)) := by
  obtain ⟨h1, h2, h3⟩ := hrows
  have hmain : deform block iter
      = (MStatus.kSuccess,
          iter.map fun P =>
            ⟨P.x, P.y + block.env * ((getBoundingBox block MBoundingBox.empty).2.min.y - P.y),
              P.z⟩) := by
    rw [deform_eq_map block hok, h1, h2, h3]
    congr 1
    refine List.map_congr_left fun P _ => ?_
    rw [deformPoint_eq _ hw hd, blendedHeight_zero, add_zero]
  refine ⟨hmain, fun hflat => ?_⟩
  rw [hmain]
  congr 1
  conv_rhs => rw [← List.map_id iter]
  refine List.map_congr_left fun P hP => ?_
  have hy := hflat P hP
  cases P with
  | mk px py pz =>
    simp only at hy
    simp [hy]

/-- C6, amended, on the mesh with box `[2,3,4]-[4,7,5]` and envelope `1/2`: the heights
`3, 7, 5` become `3, 5, 4`, and `x`, `z` are kept. -/
theorem deform_zero_lattice_witness :
    (sampleBlock ⟨0, 0, 0⟩ ⟨0, 0, 0⟩ ⟨0, 0, 0⟩ (1 / 2) sampleMesh).allSucceed ∧
    (getBoundingBox (sampleBlock ⟨0, 0, 0⟩ ⟨0, 0, 0⟩ ⟨0, 0, 0⟩ (1 / 2) sampleMesh)
      MBoundingBox.empty).2.width ≠ 0 ∧
    (getBoundingBox (sampleBlock ⟨0, 0, 0⟩ ⟨0, 0, 0⟩ ⟨0, 0, 0⟩ (1 / 2) sampleMesh)
      MBoundingBox.empty).2.depth ≠ 0 ∧
    deform (sampleBlock ⟨0, 0, 0⟩ ⟨0, 0, 0⟩ ⟨0, 0, 0⟩ (1 / 2) sampleMesh) sampleMesh
      = (MStatus.kSuccess, [⟨2, 3, 5⟩, ⟨4, 5, 4⟩, ⟨3, 4, 4⟩]) := by
  have hw : (getBoundingBox (sampleBlock ⟨0, 0, 0⟩ ⟨0, 0, 0⟩ ⟨0, 0, 0⟩ (1 / 2) sampleMesh)
      MBoundingBox.empty).2.width ≠ 0 := by
    norm_num [sampleBlock, getBoundingBox, sampleMesh, MBoundingBox.expand,
      MBoundingBox.empty, MBoundingBox.width]
  have hd : (getBoundingBox (sampleBlock ⟨0, 0, 0⟩ ⟨0, 0, 0⟩ ⟨0, 0, 0⟩ (1 / 2) sampleMesh)
      MBoundingBox.empty).2.depth ≠ 0 := by
    norm_num [sampleBlock, getBoundingBox, sampleMesh, MBoundingBox.expand,
      MBoundingBox.empty, MBoundingBox.depth]
  refine ⟨⟨rfl, rfl, rfl, rfl, rfl⟩, hw, hd, ?_⟩
  rw [(deform_zero_lattice _ ⟨rfl, rfl, rfl, rfl, rfl⟩ ⟨rfl, rfl, rfl⟩ hw hd sampleMesh).1]
  norm_num [sampleBlock, getBoundingBox, sampleMesh, MBoundingBox.expand, MBoundingBox.empty]

/-! ## C7, C8: the envelope -/

/-- C7. Envelope `0` is the identity: for every lattice row triple and every point set
whose bounding box has nonzero width and depth, `deform` with envelope `0` sets each point
to exactly its original position. -/
theorem deform_envelope_zero {K : Type} [LinearOrderedField K] (block : MDataBlock K)
    (hok : block.allSucceed) (henv : block.env = 0)
    (hw : (getBoundingBox block MBoundingBox.empty).2.width ≠ 0)
    (hd : (getBoundingBox block MBoundingBox.empty).2.depth ≠ 0) (iter : List (MPoint K)) :
    deform block iter = (MStatus.kSuccess, iter) := by
  rw [deform_eq_map block hok, henv]
  congr 1
  conv_rhs => rw [← List.map_id iter]
  refine List.map_congr_left fun P _ => ?_
  rw [deformPoint_eq _ hw hd]
  simp

/-- C7 on the mesh with box `[2,3,4]-[4,7,5]`, rows `(1,2,3)`, `(-4,1,0)`, `(5,0,7)` and
envelope `0`. -/
theorem deform_envelope_zero_witness :
    (sampleBlock ⟨1, 2, 3⟩ ⟨-4, 1, 0⟩ ⟨5, 0, 7⟩ 0 sampleMesh).allSucceed ∧
    (sampleBlock ⟨1, 2, 3⟩ ⟨-4, 1, 0⟩ ⟨5, 0, 7⟩ 0 sampleMesh).env = 0 ∧
    (getBoundingBox (sampleBlock ⟨1, 2, 3⟩ ⟨-4, 1, 0⟩ ⟨5, 0, 7⟩ 0 sampleMesh)
      MBoundingBox.empty).2.width ≠ 0 ∧
    (getBoundingBox (sampleBlock ⟨1, 2, 3⟩ ⟨-4, 1, 0⟩ ⟨5, 0, 7⟩ 0 sampleMesh)
      MBoundingBox.empty).2.depth ≠ 0 ∧
    deform (sampleBlock ⟨1, 2, 3⟩ ⟨-4, 1, 0⟩ ⟨5, 0, 7⟩ 0 sampleMesh) sampleMesh
      = (MStatus.kSuccess, sampleMesh) := by
  have hw : (getBoundingBox (sampleBlock ⟨1, 2, 3⟩ ⟨-4, 1, 0⟩ ⟨5, 0, 7⟩ 0 sampleMesh)
      MBoundingBox.empty).2.width ≠ 0 := by
    norm_num [sampleBlock, getBoundingBox, sampleMesh, MBoundingBox.expand,
      MBoundingBox.empty, MBoundingBox.width]
  have hd : (getBoundingBox (sampleBlock ⟨1, 2, 3⟩ ⟨-4, 1, 0⟩ ⟨5, 0, 7⟩ 0 sampleMesh)
      MBoundingBox.empty).2.depth ≠ 0 := by
    norm_num [sampleBlock, getBoundingBox, sampleMesh, MBoundingBox.expand,
      MBoundingBox.empty, MBoundingBox.depth]
  exact ⟨⟨rfl, rfl, rfl, rfl, rfl⟩, rfl, hw, hd,
    deform_envelope_zero _ ⟨rfl, rfl, rfl, rfl, rfl⟩ rfl hw hd sampleMesh⟩

/-- C8. Envelope linearity: for every lattice, every point `P` (box with nonzero width and
depth) and every envelope value `e`, `deformed(e) - P = e * (deformed(1) - P)`, where
`deformed(1)` is the result of the call with envelope `1` (the branch `env != 1` skipped);
both calls return one position per input point. In particular
`deformed(0.5) - P = 0.5 * (deformed(1.0) - P)`. -/
theorem deform_envelope_linear {K : Type} [LinearOrderedField K] (block : MDataBlock K)
    (hok : block.allSucceed)
    (hw : (getBoundingBox block MBoundingBox.empty).2.width ≠ 0)
    (hd : (getBoundingBox block MBoundingBox.empty).2.depth ≠ 0) (iter : List (MPoint K)) :
    (deform block iter).2.length = iter.length ∧
    (deform (block.withEnvelope 1) iter).2.length = iter.length ∧
    List.zipWith MPoint.sub (deform block iter).2 iter
      = (List.zipWith MPoint.sub (deform (block.withEnvelope 1) iter).2 iter).map
          (MVector.scalarMul block.env) := by
  have hok1 : (block.withEnvelope 1).allSucceed := hok
  have hbox : getBoundingBox (block.withEnvelope 1) MBoundingBox.empty
      = getBoundingBox block MBoundingBox.empty := rfl
  rw [deform_eq_map block hok, deform_eq_map (block.withEnvelope 1) hok1, hbox]
  refine ⟨by simp, by simp, ?_⟩
  show List.zipWith MPoint.sub (iter.map _) iter
    = (List.zipWith MPoint.sub (iter.map _) iter).map (MVector.scalarMul block.env)
  induction iter with
  | nil => rfl
  | cons P rest ih =>
    simp only [List.map_cons, List.zipWith_cons_cons, List.cons.injEq]
    refine ⟨?_, ih⟩
    rw [deformPoint_eq _ hw hd, deformPoint_eq _ hw hd]
    simp [MDataBlock.withEnvelope, MPoint.sub, MVector.scalarMul]

/-- C8 at envelope `1/2` on the mesh with box `[2,3,4]-[4,7,5]`:
`deformed(0.5) - P = 0.5 * (deformed(1.0) - P)` for each point of the mesh. -/
theorem deform_envelope_linear_witness :
    (sampleBlock ⟨1, 2, 3⟩ ⟨-4, 1, 0⟩ ⟨5, 0, 7⟩ (1 / 2) sampleMesh).allSucceed ∧
    (getBoundingBox (sampleBlock ⟨1, 2, 3⟩ ⟨-4, 1, 0⟩ ⟨5, 0, 7⟩ (1 / 2) sampleMesh)
      MBoundingBox.empty).2.width ≠ 0 ∧
    (getBoundingBox (sampleBlock ⟨1, 2, 3⟩ ⟨-4, 1, 0⟩ ⟨5, 0, 7⟩ (1 / 2) sampleMesh)
      MBoundingBox.empty).2.depth ≠ 0 ∧
    List.zipWith MPoint.sub
        (deform (sampleBlock ⟨1, 2, 3⟩ ⟨-4, 1, 0⟩ ⟨5, 0, 7⟩ (1 / 2) sampleMesh) sampleMesh).2
        sampleMesh
      = (List.zipWith MPoint.sub
          (deform (sampleBlock ⟨1, 2, 3⟩ ⟨-4, 1, 0⟩ ⟨5, 0, 7⟩ 1 sampleMesh) sampleMesh).2
          sampleMesh).map (MVector.scalarMul (1 / 2)) := by
  have hw : (getBoundingBox (sampleBlock ⟨1, 2, 3⟩ ⟨-4, 1, 0⟩ ⟨5, 0, 7⟩ (1 / 2) sampleMesh)
      MBoundingBox.empty).2.width ≠ 0 := by
    norm_num [sampleBlock, getBoundingBox, sampleMesh, MBoundingBox.expand,
      MBoundingBox.empty, MBoundingBox.width]
  have hd : (getBoundingBox (sampleBlock ⟨1, 2, 3⟩ ⟨-4, 1, 0⟩ ⟨5, 0, 7⟩ (1 / 2) sampleMesh)
      MBoundingBox.empty).2.depth ≠ 0 := by
    norm_num [sampleBlock, getBoundingBox, sampleMesh, MBoundingBox.expand,
      MBoundingBox.empty, MBoundingBox.depth]
  exact ⟨⟨rfl, rfl, rfl, rfl, rfl⟩, hw, hd,
    (deform_envelope_linear _ ⟨rfl, rfl, rfl, rfl, rfl⟩ hw hd sampleMesh).2.2⟩

/-! ## C9, C10: the result of `deform` -/

/-- C9. End-to-end on the unit cube: with bounding box `[0,0,0]-[1,1,1]` and envelope `1`,
for every point `(x, 0, z)` at height `0` and every row triple, `deform` returns
`(x, H, z)` where `H` is the sum over `r`, `k` in `0..2` of
(component `k` of row `r + 1`) `* bernsteinPoly(r, 2, x) * bernsteinPoly(k, 2, z)`.
With `row1 = row3 = (0,0,0)`, `row2 = (0,1,0)` the point `(0.5, 0, 0.5)` gets the height
`(2*0.5*0.5)*(2*0.5*0.5)*1 = 0.25`, that is the output `(0.5, 0.25, 0.5)`. -/
theorem deform_unit_cube :
    (∀ (K : Type) [LinearOrderedField K] (block : MDataBlock K) (iter : List (MPoint K)),
      block.allSucceed → block.env = 1 →
      (getBoundingBox block MBoundingBox.empty).2.min = ⟨0, 0, 0⟩ →
      (getBoundingBox block MBoundingBox.empty).2.max = ⟨1, 1, 1⟩ →
      (∀ P ∈ iter, P.y = 0) →
      deform block iter
        = (MStatus.kSuccess,
            iter.map fun P =>
              ⟨P.x, blendedHeight block.row1 block.row2 block.row3 P.x P.z, P.z⟩)) ∧
    deform (sampleBlock ⟨0, 0, 0⟩ ⟨0, 1, 0⟩ ⟨0, 0, 0⟩ 1 unitCubeMesh) [⟨1 / 2, 0, 1 / 2⟩]
      = (MStatus.kSuccess, [⟨1 / 2, 1 / 4, 1 / 2⟩]) ∧
    blendedHeight (⟨0, 0, 0⟩ : MVector ℚ) ⟨0, 1, 0⟩ ⟨0, 0, 0⟩ (1 / 2) (1 / 2)
      = (2 * (1 / 2) * (1 / 2)) * (2 * (1 / 2) * (1 / 2)) * 1 := by
  refine ⟨?_, ?_, ?_⟩
  · intro K _ block iter hok henv hmin hmax _
    have hw : (getBoundingBox block MBoundingBox.empty).2.width ≠ 0 := by
      simp [MBoundingBox.width, hmin, hmax]
    have hd : (getBoundingBox block MBoundingBox.empty).2.depth ≠ 0 := by
      simp [MBoundingBox.depth, hmin, hmax]
    rw [deform_eq_map block hok, henv]
    congr 1
    refine List.map_congr_left fun P _ => ?_
    rw [deformPoint_eq _ hw hd, getXyzToStuTransformation_eq]
    simp [MPoint.mulMatrix, MTransformationMatrix.asMatrix, MBoundingBox.width,
      MBoundingBox.depth, hmin, hmax]
  · norm_num [deform, sampleBlock, getBoundingBox, unitCubeMesh, MBoundingBox.expand,
      MBoundingBox.empty, getXyzToStuTransformation, MTransformationMatrix.identity,
      MTransformationMatrix.addScale, MTransformationMatrix.addTranslation,
      MTransformationMatrix.asMatrix, MTransformationMatrix.asMatrixInverse, MVector.add,
      MPoint.sub, MPoint.origin, MBoundingBox.width, MBoundingBox.height, MBoundingBox.depth,
      deformPoint, MPoint.mulMatrix, getDeformedPoint, loopS_eq, bodyS, loopT_eq, bodyT,
      loopU_eq, bodyU, MPoint.addVector, MVector.mulScalar, MVector.zero, deformLattice,
      bernsteinPoly_zero_zero, bernsteinPoly_zero_two, bernsteinPoly_one_two,
      bernsteinPoly_two_two]
  · norm_num [blendedHeight, MVector.component, Fin.sum_univ_three, bernsteinPoly_zero_two,
      bernsteinPoly_one_two, bernsteinPoly_two_two]

/-- C9 on the unit cube with rows `(1,2,3)`, `(-4,1,0)`, `(5,0,7)`: the points `(0,0,0)`,
`(1,0,1)` and `(1/4,0,1/2)` at height `0` get the heights `1`, `7` and `9/8`. -/
theorem deform_unit_cube_witness :
    (sampleBlock ⟨1, 2, 3⟩ ⟨-4, 1, 0⟩ ⟨5, 0, 7⟩ 1 unitCubeMesh).allSucceed ∧
    (getBoundingBox (sampleBlock ⟨1, 2, 3⟩ ⟨-4, 1, 0⟩ ⟨5, 0, 7⟩ 1 unitCubeMesh)
      MBoundingBox.empty).2.min = ⟨0, 0, 0⟩ ∧
    (getBoundingBox (sampleBlock ⟨1, 2, 3⟩ ⟨-4, 1, 0⟩ ⟨5, 0, 7⟩ 1 unitCubeMesh)
      MBoundingBox.empty).2.max = ⟨1, 1, 1⟩ ∧
    deform (sampleBlock ⟨1, 2, 3⟩ ⟨-4, 1, 0⟩ ⟨5, 0, 7⟩ 1 unitCubeMesh)
        [⟨0, 0, 0⟩, ⟨1, 0, 1⟩, ⟨1 / 4, 0, 1 / 2⟩]
      = (MStatus.kSuccess, [⟨0, 1, 0⟩, ⟨1, 7, 1⟩, ⟨1 / 4, 9 / 8, 1 / 2⟩]) := by
  have hmin : (getBoundingBox (sampleBlock ⟨1, 2, 3⟩ ⟨-4, 1, 0⟩ ⟨5, 0, 7⟩ 1 unitCubeMesh)
      MBoundingBox.empty).2.min = ⟨0, 0, 0⟩ := by
    norm_num [sampleBlock, getBoundingBox, unitCubeMesh, MBoundingBox.expand,
      MBoundingBox.empty]
  have hmax : (getBoundingBox (sampleBlock ⟨1, 2, 3⟩ ⟨-4, 1, 0⟩ ⟨5, 0, 7⟩ 1 unitCubeMesh)
      MBoundingBox.empty).2.max = ⟨1, 1, 1⟩ := by
    norm_num [sampleBlock, getBoundingBox, unitCubeMesh, MBoundingBox.expand,
      MBoundingBox.empty]
  refine ⟨⟨rfl, rfl, rfl, rfl, rfl⟩, hmin, hmax, ?_⟩
  rw [deform_unit_cube.1 ℚ _ [⟨0, 0, 0⟩, ⟨1, 0, 1⟩, ⟨1 / 4, 0, 1 / 2⟩]
    ⟨rfl, rfl, rfl, rfl, rfl⟩ rfl hmin hmax (by simp)]
  norm_num [sampleBlock, blendedHeight, MVector.component, Fin.sum_univ_three,
    bernsteinPoly_zero_two, bernsteinPoly_one_two, bernsteinPoly_two_two]

/-- C10. Height-only deformation: for every row triple, every envelope value and every
input point (inside or outside the box), when the bounding box has nonzero width and depth
the deformed point's `x` and `z` equal the input point's `x` and `z`; only the height `y`
can change. -/
theorem deform_keeps_x_and_z {K : Type} [LinearOrderedField K] (block : MDataBlock K)
    (hok : block.allSucceed)
    (hw : (getBoundingBox block MBoundingBox.empty).2.width ≠ 0)
    (hd : (getBoundingBox block MBoundingBox.empty).2.depth ≠ 0) (iter : List (MPoint K)) :
    (deform block iter).2.map (fun P => (P.x, P.z)) = iter.map (fun P => (P.x, P.z)) := by
  rw [deform_eq_map block hok]
  simp only [List.map_map]
  refine List.map_congr_left fun P _ => ?_
  simp only [Function.comp_apply]
  rw [deformPoint_eq _ hw hd]

/-- C10 on the mesh with box `[2,3,4]-[4,7,5]`, rows `(1,2,3)`, `(-4,1,0)`, `(5,0,7)`,
envelope `1/2`, for a point of the mesh and the point `(3, 5, -2)` outside the box. -/
theorem deform_keeps_x_and_z_witness :
    (sampleBlock ⟨1, 2, 3⟩ ⟨-4, 1, 0⟩ ⟨5, 0, 7⟩ (1 / 2) sampleMesh).allSucceed ∧
    (getBoundingBox (sampleBlock ⟨1, 2, 3⟩ ⟨-4, 1, 0⟩ ⟨5, 0, 7⟩ (1 / 2) sampleMesh)
      MBoundingBox.empty).2.width ≠ 0 ∧
    (getBoundingBox (sampleBlock ⟨1, 2, 3⟩ ⟨-4, 1, 0⟩ ⟨5, 0, 7⟩ (1 / 2) sampleMesh)
      MBoundingBox.empty).2.depth ≠ 0 ∧
    (deform (sampleBlock ⟨1, 2, 3⟩ ⟨-4, 1, 0⟩ ⟨5, 0, 7⟩ (1 / 2) sampleMesh)
        [⟨2, 3, 5⟩, ⟨3, 5, -2⟩]).2.map (fun P => (P.x, P.z))
      = [(2, 5), (3, -2)] := by
  have hw : (getBoundingBox (sampleBlock ⟨1, 2, 3⟩ ⟨-4, 1, 0⟩ ⟨5, 0, 7⟩ (1 / 2) sampleMesh)
      MBoundingBox.empty).2.width ≠ 0 := by
    norm_num [sampleBlock, getBoundingBox, sampleMesh, MBoundingBox.expand,
      MBoundingBox.empty, MBoundingBox.width]
  have hd : (getBoundingBox (sampleBlock ⟨1, 2, 3⟩ ⟨-4, 1, 0⟩ ⟨5, 0, 7⟩ (1 / 2) sampleMesh)
      MBoundingBox.empty).2.depth ≠ 0 := by
    norm_num [sampleBlock, getBoundingBox, sampleMesh, MBoundingBox.expand,
      MBoundingBox.empty, MBoundingBox.depth]
  exact ⟨⟨rfl, rfl, rfl, rfl, rfl⟩, hw, hd,
    deform_keeps_x_and_z _ ⟨rfl, rfl, rfl, rfl, rfl⟩ hw hd [⟨2, 3, 5⟩, ⟨3, 5, -2⟩]⟩

/-! ## C11: the packing of the lattice -/

/-- C11. Lattice packing: for every row triple `(row1, row2, row3)` and every `r`, `k` in
`{0, 1, 2}`, the lattice built in `deform` has `lattice[r][0][k] = (r/2, c, k/2)` where `c`
is the `k`-th component (`x` for `k = 0`, `y` for `k = 1`, `z` for `k = 2`) of row `r + 1`:
the S and U entries are the grid-index constants and only the height entry comes from the
caller. -/
theorem deformLattice_packing {K : Type} [LinearOrderedField K]
    (row1 row2 row3 : MVector K) (r k : Fin 3) :
    deformLattice row1 row2 row3 r 0 k
      = ⟨((r : ℕ) : K) / 2, (![row1, row2, row3] r).component k, ((k : ℕ) : K) / 2⟩ := by
  fin_cases r <;> fin_cases k <;> simp [deformLattice, MVector.component]

/-! ## C12: the Bernstein polynomial -/

/-- C12 fails as stated: at `i = 15`, `n = 30`, `t = 1/2` the coefficient `nChooseK(30, 15)`
overflows the 32-bit `int` and `bernsteinPoly(15, 30, 1/2)` is `-131213633 / 2^30`, while
`C(30, 15) * (1 - 1/2)^15 * (1/2)^15` is `155117520 / 2^30`. -/
theorem bernsteinPoly_formula_counterexample :
    (15 : ℕ) ≤ 30 ∧
    bernsteinPoly ((15 : ℕ) : ℤ) ((30 : ℕ) : ℤ) (1 / 2 : ℚ) = -131213633 / 1073741824 ∧
    (Nat.choose 30 15 : ℚ) * (1 - 1 / 2) ^ (30 - 15) * (1 / 2) ^ 15
      = 155117520 / 1073741824 ∧
    bernsteinPoly ((15 : ℕ) : ℤ) ((30 : ℕ) : ℤ) (1 / 2 : ℚ)
      ≠ (Nat.choose 30 15 : ℚ) * (1 - 1 / 2) ^ (30 - 15) * (1 / 2) ^ 15 := by
  have hcode : nChooseK ((30 : ℕ) : ℤ) ((15 : ℕ) : ℤ) = -131213633 := by decide!
  have hval : bernsteinPoly ((15 : ℕ) : ℤ) ((30 : ℕ) : ℤ) (1 / 2 : ℚ)
      = -131213633 / 1073741824 := by
    rw [bernsteinPoly_thirty_half 15 (by decide), hcode]
    norm_num
  have hexact : (Nat.choose 30 15 : ℚ) * (1 - 1 / 2) ^ (30 - 15) * (1 / 2) ^ 15
      = 155117520 / 1073741824 := by
    rw [choose_thirty_fifteen]
    norm_num
  refine ⟨by decide, hval, hexact, ?_⟩
  rw [hval, hexact]
  norm_num

/-- C12, amended. For every `0 ≤ i ≤ n ≤ 29`, where `nChooseK` stays inside the 32-bit
`int`, and every `t`, `bernsteinPoly(i, n, t)` is `C(n, i) * (1 - t)^(n - i) * t^i` with `C`
the standard binomial coefficient and no clamping of `t`; for degree 2 this is `(1-t)^2`,
`2t(1-t)`, `t^2` for `i = 0, 1, 2` (at `t = 0.3`: `0.49`, `0.42`, `0.09`). -/
theorem bernsteinPoly_formula {K : Type} [LinearOrderedField K] :
    (∀ (i n : ℕ) (t : K), i ≤ n → n ≤ 29 →
      bernsteinPoly (i : ℤ) (n : ℤ) t = (n.choose i : K) * (1 - t) ^ (n - i) * t ^ i) ∧
    (∀ t : K, bernsteinPoly 0 2 t = (1 - t) ^ 2 ∧ bernsteinPoly 1 2 t = 2 * t * (1 - t) ∧
      bernsteinPoly 2 2 t = t ^ 2) ∧
    (bernsteinPoly 0 2 (3 / 10 : K) = 49 / 100 ∧ bernsteinPoly 1 2 (3 / 10 : K) = 42 / 100 ∧
      bernsteinPoly 2 2 (3 / 10 : K) = 9 / 100) := by
  refine ⟨fun i n t hi hn => bernsteinPoly_natCast i n hi hn t, fun t => ⟨?_, ?_, ?_⟩,
    ?_, ?_, ?_⟩
  · exact bernsteinPoly_zero_two t
  · rw [bernsteinPoly_one_two]; ring
  · exact bernsteinPoly_two_two t
  · rw [bernsteinPoly_zero_two]; norm_num
  · rw [bernsteinPoly_one_two]; norm_num
  · rw [bernsteinPoly_two_two]; norm_num

/-- C12, amended, at `i = 3`, `n = 5`, `t = -2` (outside `[0, 1]`):
`C(5,3) * 3^2 * (-2)^3 = -720`. -/
theorem bernsteinPoly_formula_witness :
    (3 : ℕ) ≤ 5 ∧ (5 : ℕ) ≤ 29 ∧
    bernsteinPoly ((3 : ℕ) : ℤ) ((5 : ℕ) : ℤ) (-2 : ℚ) = -720 := by
  refine ⟨by decide, by decide, ?_⟩
  rw [bernsteinPoly_formula.1 3 5 (-2 : ℚ) (by decide) (by decide)]
  norm_num [Nat.choose]

/-! ## C13: no point to deform -/

/-- C13. When the sequence of points to deform is empty, `deform` performs no position
update, produces an empty output and reports success rather than an error, given that the
data-block reads and the bounding-box step succeed. -/
theorem deform_no_points {K : Type} [LinearOrderedField K] (block : MDataBlock K)
    (hok : block.allSucceed) :
    (getBoundingBox block MBoundingBox.empty).1 = MStatus.kSuccess ∧
    deform block [] = (MStatus.kSuccess, []) := by
  refine ⟨?_, ?_⟩
  · obtain ⟨_, _, _, _, h5⟩ := hok
    simp [getBoundingBox, h5]
  · rw [deform_eq_map block hok]
    rfl

/-- C13 on the mesh with box `[2,3,4]-[4,7,5]` and rows `(1,2,3)`, `(-4,1,0)`, `(5,0,7)`. -/
theorem deform_no_points_witness :
    (sampleBlock ⟨1, 2, 3⟩ ⟨-4, 1, 0⟩ ⟨5, 0, 7⟩ (1 / 2) sampleMesh).allSucceed ∧
    deform (sampleBlock ⟨1, 2, 3⟩ ⟨-4, 1, 0⟩ ⟨5, 0, 7⟩ (1 / 2) sampleMesh) []
      = (MStatus.kSuccess, []) :=
  ⟨⟨rfl, rfl, rfl, rfl, rfl⟩, (deform_no_points _ ⟨rfl, rfl, rfl, rfl, rfl⟩).2⟩

/-! ## C18: the corners of the surface -/

/-- C18. Corner interpolation: for every row triple and every parametric `t`, evaluating
the packed lattice with `getDeformedPoint` at `(s, u) = (0,0), (0,1), (1,0), (1,1)` returns
the height `row1.x`, `row1.z`, `row3.x`, `row3.z` respectively, with `s` and `u` unchanged:
the surface passes through the four corner control heights. -/
theorem getDeformedPoint_corners {K : Type} [LinearOrderedField K]
    (row1 row2 row3 : MVector K) (t : K) :
    getDeformedPoint ⟨0, t, 0⟩ (deformLattice row1 row2 row3) = ⟨0, row1.x, 0⟩ ∧
    getDeformedPoint ⟨0, t, 1⟩ (deformLattice row1 row2 row3) = ⟨0, row1.z, 1⟩ ∧
    getDeformedPoint ⟨1, t, 0⟩ (deformLattice row1 row2 row3) = ⟨1, row3.x, 0⟩ ∧
    getDeformedPoint ⟨1, t, 1⟩ (deformLattice row1 row2 row3) = ⟨1, row3.z, 1⟩ := by
  refine ⟨?_, ?_, ?_, ?_⟩ <;>
    simp [getDeformedPoint_deformLattice, blendedHeight, MVector.component,
      Fin.sum_univ_three, bernsteinPoly_zero_two, bernsteinPoly_one_two,
      bernsteinPoly_two_two]

/-! ## C16: the input height is discarded -/

/-- C16. With the packed lattice and envelope `1` the evaluator discards the input height:
for every point `P` whose box has nonzero width and depth, the output height is
`box.min.y` plus the sum over `r`, `k` in `0..2` of
(component `k` of row `r + 1`) `* bernsteinPoly(r, 2, s) * bernsteinPoly(k, 2, u)`, where
`(s, u)` are the parametric coordinates of `P`; so two input points with equal `x` and `z`
but different `y` are mapped to the same output point. -/
theorem deform_discards_height {K : Type} [LinearOrderedField K] (block : MDataBlock K)
    (hok : block.allSucceed) (henv : block.env = 1)
    (hw : (getBoundingBox block MBoundingBox.empty).2.width ≠ 0)
    (hd : (getBoundingBox block MBoundingBox.empty).2.depth ≠ 0) :
    (∀ q : MPoint K, ∀ t : K,
      getDeformedPoint q (deformLattice block.row1 block.row2 block.row3)
        = getDeformedPoint ⟨q.x, t, q.z⟩ (deformLattice block.row1 block.row2 block.row3)) ∧
    (∀ iter : List (MPoint K),
      deform block iter
        = (MStatus.kSuccess,
            iter.map fun P =>
              ⟨P.x,
               (getBoundingBox block MBoundingBox.empty).2.min.y
                 + blendedHeight block.row1 block.row2 block.row3
                     (P.mulMatrix (getXyzToStuTransformation
                       (getBoundingBox block MBoundingBox.empty).2).asMatrix).x
                     (P.mulMatrix (getXyzToStuTransformation
                       (getBoundingBox block MBoundingBox.empty).2).asMatrix).z,
               P.z⟩)) ∧
    (∀ P Q : MPoint K, P.x = Q.x → P.z = Q.z → deform block [P] = deform block [Q]) := by
  have hmap : ∀ iter : List (MPoint K),
      deform block iter
        = (MStatus.kSuccess,
            iter.map fun P =>
              ⟨P.x,
               (getBoundingBox block MBoundingBox.empty).2.min.y
                 + blendedHeight block.row1 block.row2 block.row3
                     (P.mulMatrix (getXyzToStuTransformation
                       (getBoundingBox block MBoundingBox.empty).2).asMatrix).x
                     (P.mulMatrix (getXyzToStuTransformation
                       (getBoundingBox block MBoundingBox.empty).2).asMatrix).z,
               P.z⟩) := by
    intro iter
    rw [deform_eq_map block hok, henv]
    congr 1
    refine List.map_congr_left fun P _ => ?_
    rw [deformPoint_eq _ hw hd]
    simp
  refine ⟨fun q t => ?_, hmap, fun P Q hx hz => ?_⟩
  · rw [getDeformedPoint_deformLattice, getDeformedPoint_deformLattice]
  · rw [hmap, hmap]
    simp [MPoint.mulMatrix, hx, hz]

/-- C16 on the mesh with box `[2,3,4]-[4,7,5]`, rows `(1,2,3)`, `(-4,1,0)`, `(5,0,7)` and
envelope `1`: the points `(3, 5, 4)` and `(3, 100, 4)` both go to `(3, 5/2, 4)`. -/
theorem deform_discards_height_witness :
    (sampleBlock ⟨1, 2, 3⟩ ⟨-4, 1, 0⟩ ⟨5, 0, 7⟩ 1 sampleMesh).allSucceed ∧
    (getBoundingBox (sampleBlock ⟨1, 2, 3⟩ ⟨-4, 1, 0⟩ ⟨5, 0, 7⟩ 1 sampleMesh)
      MBoundingBox.empty).2.width ≠ 0 ∧
    (getBoundingBox (sampleBlock ⟨1, 2, 3⟩ ⟨-4, 1, 0⟩ ⟨5, 0, 7⟩ 1 sampleMesh)
      MBoundingBox.empty).2.depth ≠ 0 ∧
    deform (sampleBlock ⟨1, 2, 3⟩ ⟨-4, 1, 0⟩ ⟨5, 0, 7⟩ 1 sampleMesh) [⟨3, 5, 4⟩]
      = deform (sampleBlock ⟨1, 2, 3⟩ ⟨-4, 1, 0⟩ ⟨5, 0, 7⟩ 1 sampleMesh) [⟨3, 100, 4⟩] := by
  have hw : (getBoundingBox (sampleBlock ⟨1, 2, 3⟩ ⟨-4, 1, 0⟩ ⟨5, 0, 7⟩ 1 sampleMesh)
      MBoundingBox.empty).2.width ≠ 0 := by
    norm_num [sampleBlock, getBoundingBox, sampleMesh, MBoundingBox.expand,
      MBoundingBox.empty, MBoundingBox.width]
  have hd : (getBoundingBox (sampleBlock ⟨1, 2, 3⟩ ⟨-4, 1, 0⟩ ⟨5, 0, 7⟩ 1 sampleMesh)
      MBoundingBox.empty).2.depth ≠ 0 := by
    norm_num [sampleBlock, getBoundingBox, sampleMesh, MBoundingBox.expand,
      MBoundingBox.empty, MBoundingBox.depth]
  exact ⟨⟨rfl, rfl, rfl, rfl, rfl⟩, hw, hd,
    (deform_discards_height _ ⟨rfl, rfl, rfl, rfl, rfl⟩ rfl hw hd).2.2
      ⟨3, 5, 4⟩ ⟨3, 100, 4⟩ rfl rfl⟩

/-! ## C19: the convex-hull bound -/

/-- The blended height is a combination of the nine row components with the weights
`B_r(s) * B_k(u)`, written relative to a reference value `m`. -/
theorem blendedHeight_sub {K : Type} [LinearOrderedField K] (row1 row2 row3 : MVector K)
    (s u m : K) :
    blendedHeight row1 row2 row3 s u - m
      = (1 - s) ^ 2 * (1 - u) ^ 2 * (row1.x - m) + (1 - s) ^ 2 * (2 * (1 - u) * u) * (row1.y - m)
        + (1 - s) ^ 2 * u ^ 2 * (row1.z - m)
        + 2 * (1 - s) * s * (1 - u) ^ 2 * (row2.x - m)
        + 2 * (1 - s) * s * (2 * (1 - u) * u) * (row2.y - m)
        + 2 * (1 - s) * s * u ^ 2 * (row2.z - m)
        + s ^ 2 * (1 - u) ^ 2 * (row3.x - m) + s ^ 2 * (2 * (1 - u) * u) * (row3.y - m)
        + s ^ 2 * u ^ 2 * (row3.z - m) := by
  simp only [blendedHeight, MVector.component, Fin.sum_univ_three, Fin.val_zero, Fin.val_one,
    Fin.val_two, Nat.cast_zero, Nat.cast_one, Nat.cast_ofNat, Fin.isValue,
    Matrix.cons_val_zero, Matrix.cons_val_one, Matrix.cons_val_two, Matrix.head_cons,
    Matrix.tail_cons, bernsteinPoly_zero_two, bernsteinPoly_one_two, bernsteinPoly_two_two]
  ring

/-- The least row component is below each of the nine row components. -/
theorem minRowComponent_le {K : Type} [LinearOrderedField K] (row1 row2 row3 : MVector K) :
    minRowComponent row1 row2 row3 ≤ row1.x ∧ minRowComponent row1 row2 row3 ≤ row1.y ∧
    minRowComponent row1 row2 row3 ≤ row1.z ∧ minRowComponent row1 row2 row3 ≤ row2.x ∧
    minRowComponent row1 row2 row3 ≤ row2.y ∧ minRowComponent row1 row2 row3 ≤ row2.z ∧
    minRowComponent row1 row2 row3 ≤ row3.x ∧ minRowComponent row1 row2 row3 ≤ row3.y ∧
    minRowComponent row1 row2 row3 ≤ row3.z := by
  unfold minRowComponent
  have r := fun a b : K => min_le_right a b
  have l := fun a b : K => min_le_left a b
  refine ⟨l _ _, (r _ _).trans (l _ _), ((r _ _).trans (r _ _)).trans (l _ _),
    (((r _ _).trans (r _ _)).trans (r _ _)).trans (l _ _),
    ((((r _ _).trans (r _ _)).trans (r _ _)).trans (r _ _)).trans (l _ _),
    (((((r _ _).trans (r _ _)).trans (r _ _)).trans (r _ _)).trans (r _ _)).trans (l _ _),
    ((((((r _ _).trans (r _ _)).trans (r _ _)).trans (r _ _)).trans (r _ _)).trans
      (r _ _)).trans (l _ _),
    (((((((r _ _).trans (r _ _)).trans (r _ _)).trans (r _ _)).trans (r _ _)).trans
      (r _ _)).trans (r _ _)).trans (l _ _),
    (((((((r _ _).trans (r _ _)).trans (r _ _)).trans (r _ _)).trans (r _ _)).trans
      (r _ _)).trans (r _ _)).trans (r _ _)⟩

/-- Each of the nine row components is below the greatest row component. -/
theorem le_maxRowComponent {K : Type} [LinearOrderedField K] (row1 row2 row3 : MVector K) :
    row1.x ≤ maxRowComponent row1 row2 row3 ∧ row1.y ≤ maxRowComponent row1 row2 row3 ∧
    row1.z ≤ maxRowComponent row1 row2 row3 ∧ row2.x ≤ maxRowComponent row1 row2 row3 ∧
    row2.y ≤ maxRowComponent row1 row2 row3 ∧ row2.z ≤ maxRowComponent row1 row2 row3 ∧
    row3.x ≤ maxRowComponent row1 row2 row3 ∧ row3.y ≤ maxRowComponent row1 row2 row3 ∧
    row3.z ≤ maxRowComponent row1 row2 row3 := by
  unfold maxRowComponent
  have r := fun a b : K => le_max_right a b
  have l := fun a b : K => le_max_left a b
  refine ⟨l _ _, (l _ _).trans (r _ _), ((l _ _).trans (r _ _)).trans (r _ _),
    (((l _ _).trans (r _ _)).trans (r _ _)).trans (r _ _),
    ((((l _ _).trans (r _ _)).trans (r _ _)).trans (r _ _)).trans (r _ _),
    (((((l _ _).trans (r _ _)).trans (r _ _)).trans (r _ _)).trans (r _ _)).trans (r _ _),
    ((((((l _ _).trans (r _ _)).trans (r _ _)).trans (r _ _)).trans (r _ _)).trans
      (r _ _)).trans (r _ _),
    (((((((l _ _).trans (r _ _)).trans (r _ _)).trans (r _ _)).trans (r _ _)).trans
      (r _ _)).trans (r _ _)).trans (r _ _),
    (((((((r _ _).trans (r _ _)).trans (r _ _)).trans (r _ _)).trans (r _ _)).trans
      (r _ _)).trans (r _ _)).trans (r _ _)⟩

/-- C19. Convex-hull bound: for every row triple and every parametric point with `s` and
`u` in `[0, 1]`, the height returned by `getDeformedPoint` on the packed lattice lies
between the minimum and the maximum of the nine row components `row1.x … row3.z`; the
degree-2 Bernstein weights are non-negative on `[0, 1]` and sum to `1`. -/
theorem getDeformedPoint_height_bounds {K : Type} [LinearOrderedField K]
    (row1 row2 row3 : MVector K) (q : MPoint K)
    (hs0 : 0 ≤ q.x) (hs1 : q.x ≤ 1) (hu0 : 0 ≤ q.z) (hu1 : q.z ≤ 1) :
    minRowComponent row1 row2 row3 ≤ (getDeformedPoint q (deformLattice row1 row2 row3)).y ∧
    (getDeformedPoint q (deformLattice row1 row2 row3)).y ≤ maxRowComponent row1 row2 row3 ∧
    (0 ≤ bernsteinPoly 0 2 q.x ∧ 0 ≤ bernsteinPoly 1 2 q.x ∧ 0 ≤ bernsteinPoly 2 2 q.x) ∧
    (0 ≤ bernsteinPoly 0 2 q.z ∧ 0 ≤ bernsteinPoly 1 2 q.z ∧ 0 ≤ bernsteinPoly 2 2 q.z) ∧
    bernsteinPoly 0 2 q.x + bernsteinPoly 1 2 q.x + bernsteinPoly 2 2 q.x = 1 ∧
    bernsteinPoly 0 2 q.z + bernsteinPoly 1 2 q.z + bernsteinPoly 2 2 q.z = 1 := by
  have hs : 0 ≤ 1 - q.x := sub_nonneg.mpr hs1
  have hu : 0 ≤ 1 - q.z := sub_nonneg.mpr hu1
  have a0 : 0 ≤ (1 - q.x) ^ 2 := sq_nonneg _
  have a1 : 0 ≤ 2 * (1 - q.x) * q.x := mul_nonneg (mul_nonneg (by norm_num) hs) hs0
  have a2 : 0 ≤ q.x ^ 2 := sq_nonneg _
  have b0 : 0 ≤ (1 - q.z) ^ 2 := sq_nonneg _
  have b1 : 0 ≤ 2 * (1 - q.z) * q.z := mul_nonneg (mul_nonneg (by norm_num) hu) hu0
  have b2 : 0 ≤ q.z ^ 2 := sq_nonneg _
  have hlow : ∀ m : K, m ≤ row1.x → m ≤ row1.y → m ≤ row1.z → m ≤ row2.x → m ≤ row2.y →
      m ≤ row2.z → m ≤ row3.x → m ≤ row3.y → m ≤ row3.z →
      0 ≤ blendedHeight row1 row2 row3 q.x q.z - m := by
    intro m h1 h2 h3 h4 h5 h6 h7 h8 h9
    rw [blendedHeight_sub]
    have t1 := mul_nonneg (mul_nonneg a0 b0) (sub_nonneg.mpr h1)
    have t2 := mul_nonneg (mul_nonneg a0 b1) (sub_nonneg.mpr h2)
    have t3 := mul_nonneg (mul_nonneg a0 b2) (sub_nonneg.mpr h3)
    have t4 := mul_nonneg (mul_nonneg a1 b0) (sub_nonneg.mpr h4)
    have t5 := mul_nonneg (mul_nonneg a1 b1) (sub_nonneg.mpr h5)
    have t6 := mul_nonneg (mul_nonneg a1 b2) (sub_nonneg.mpr h6)
    have t7 := mul_nonneg (mul_nonneg a2 b0) (sub_nonneg.mpr h7)
    have t8 := mul_nonneg (mul_nonneg a2 b1) (sub_nonneg.mpr h8)
    have t9 := mul_nonneg (mul_nonneg a2 b2) (sub_nonneg.mpr h9)
    linarith
  have hhigh : ∀ m : K, row1.x ≤ m → row1.y ≤ m → row1.z ≤ m → row2.x ≤ m → row2.y ≤ m →
      row2.z ≤ m → row3.x ≤ m → row3.y ≤ m → row3.z ≤ m →
      blendedHeight row1 row2 row3 q.x q.z - m ≤ 0 := by
    intro m h1 h2 h3 h4 h5 h6 h7 h8 h9
    rw [blendedHeight_sub]
    have t1 := mul_nonpos_of_nonneg_of_nonpos (mul_nonneg a0 b0) (sub_nonpos.mpr h1)
    have t2 := mul_nonpos_of_nonneg_of_nonpos (mul_nonneg a0 b1) (sub_nonpos.mpr h2)
    have t3 := mul_nonpos_of_nonneg_of_nonpos (mul_nonneg a0 b2) (sub_nonpos.mpr h3)
    have t4 := mul_nonpos_of_nonneg_of_nonpos (mul_nonneg a1 b0) (sub_nonpos.mpr h4)
    have t5 := mul_nonpos_of_nonneg_of_nonpos (mul_nonneg a1 b1) (sub_nonpos.mpr h5)
    have t6 := mul_nonpos_of_nonneg_of_nonpos (mul_nonneg a1 b2) (sub_nonpos.mpr h6)
    have t7 := mul_nonpos_of_nonneg_of_nonpos (mul_nonneg a2 b0) (sub_nonpos.mpr h7)
    have t8 := mul_nonpos_of_nonneg_of_nonpos (mul_nonneg a2 b1) (sub_nonpos.mpr h8)
    have t9 := mul_nonpos_of_nonneg_of_nonpos (mul_nonneg a2 b2) (sub_nonpos.mpr h9)
    linarith
  rw [getDeformedPoint_deformLattice]
  simp only [bernsteinPoly_zero_two, bernsteinPoly_one_two, bernsteinPoly_two_two]
  refine ⟨?_, ?_, ⟨a0, a1, a2⟩, ⟨b0, b1, b2⟩, by ring, by ring⟩
  · obtain ⟨h1, h2, h3, h4, h5, h6, h7, h8, h9⟩ := minRowComponent_le row1 row2 row3
    have h := hlow (minRowComponent row1 row2 row3) h1 h2 h3 h4 h5 h6 h7 h8 h9
    linarith
  · obtain ⟨h1, h2, h3, h4, h5, h6, h7, h8, h9⟩ := le_maxRowComponent row1 row2 row3
    have h := hhigh (maxRowComponent row1 row2 row3) h1 h2 h3 h4 h5 h6 h7 h8 h9
    linarith

/-- C19 for rows `(1,2,3)`, `(-4,1,0)`, `(5,0,7)` at `(s, u) = (1/4, 1/2)`: the height lies
between the least component `-4` and the greatest component `7`. -/
theorem getDeformedPoint_height_bounds_witness :
    (0 : ℚ) ≤ 1 / 4 ∧ (1 / 4 : ℚ) ≤ 1 ∧ (0 : ℚ) ≤ 1 / 2 ∧ (1 / 2 : ℚ) ≤ 1 ∧
    minRowComponent (⟨1, 2, 3⟩ : MVector ℚ) ⟨-4, 1, 0⟩ ⟨5, 0, 7⟩
      ≤ (getDeformedPoint ⟨1 / 4, 9, 1 / 2⟩ (deformLattice ⟨1, 2, 3⟩ ⟨-4, 1, 0⟩ ⟨5, 0, 7⟩)).y ∧
    (getDeformedPoint ⟨1 / 4, 9, 1 / 2⟩ (deformLattice ⟨1, 2, 3⟩ ⟨-4, 1, 0⟩ ⟨5, 0, 7⟩)).y
      ≤ maxRowComponent (⟨1, 2, 3⟩ : MVector ℚ) ⟨-4, 1, 0⟩ ⟨5, 0, 7⟩ := by
  have h := getDeformedPoint_height_bounds (⟨1, 2, 3⟩ : MVector ℚ) ⟨-4, 1, 0⟩ ⟨5, 0, 7⟩
    ⟨1 / 4, 9, 1 / 2⟩ (by norm_num) (by norm_num) (by norm_num) (by norm_num)
  exact ⟨by norm_num, by norm_num, by norm_num, by norm_num, h.1, h.2.1⟩

/-! ## C14: an empty bounding source -/

/-- A data block whose mesh could not be obtained makes `deform` fail without moving a
point, whatever the other reads return. -/
theorem deform_mesh_failure {K : Type} [LinearOrderedField K] (block : MDataBlock K)
    (hmesh : block.meshStatus ≠ MStatus.kSuccess) (iter : List (MPoint K)) :
    deform block iter = (MStatus.kFailure, iter) := by
  have hne : MStatus.kSuccess ≠ block.meshStatus := fun h => hmesh h.symm
  have hbox : getBoundingBox block MBoundingBox.empty
      = (MStatus.kFailure, MBoundingBox.empty) := by
    simp [getBoundingBox, hne]
  unfold deform
  rw [hbox]
  split_ifs <;> rfl

/-- C14 fails as stated: with an empty bounding-source point list and a mesh that was
obtained, `getBoundingBox` succeeds with the default empty box and `deform` reports success
and gives every point a new position. -/
theorem getBoundingBox_empty_counterexample :
    (sampleBlock ⟨1, 2, 3⟩ ⟨-4, 1, 0⟩ ⟨5, 0, 7⟩ 1 []).meshPoints = [] ∧
    getBoundingBox (sampleBlock ⟨1, 2, 3⟩ ⟨-4, 1, 0⟩ ⟨5, 0, 7⟩ 1 []) MBoundingBox.empty
      = (MStatus.kSuccess, MBoundingBox.empty) ∧
    (getBoundingBox (sampleBlock ⟨1, 2, 3⟩ ⟨-4, 1, 0⟩ ⟨5, 0, 7⟩ 1 []) MBoundingBox.empty).1
      ≠ MStatus.kFailure ∧
    deform (sampleBlock ⟨1, 2, 3⟩ ⟨-4, 1, 0⟩ ⟨5, 0, 7⟩ 1 []) sampleMesh
      = (MStatus.kSuccess,
          sampleMesh.map (deformPoint
            (getXyzToStuTransformation (MBoundingBox.empty : MBoundingBox ℚ)).asMatrix
            (getXyzToStuTransformation (MBoundingBox.empty : MBoundingBox ℚ)).asMatrixInverse
            (deformLattice ⟨1, 2, 3⟩ ⟨-4, 1, 0⟩ ⟨5, 0, 7⟩) 1)) ∧
    (deform (sampleBlock ⟨1, 2, 3⟩ ⟨-4, 1, 0⟩ ⟨5, 0, 7⟩ 1 []) sampleMesh).1
      ≠ MStatus.kFailure := by
  have hbox : getBoundingBox (sampleBlock ⟨1, 2, 3⟩ ⟨-4, 1, 0⟩ ⟨5, 0, 7⟩ 1 [])
      MBoundingBox.empty = (MStatus.kSuccess, MBoundingBox.empty) := by
    simp [getBoundingBox, sampleBlock]
  have hrun : deform (sampleBlock ⟨1, 2, 3⟩ ⟨-4, 1, 0⟩ ⟨5, 0, 7⟩ 1 []) sampleMesh
      = (MStatus.kSuccess,
          sampleMesh.map (deformPoint
            (getXyzToStuTransformation (MBoundingBox.empty : MBoundingBox ℚ)).asMatrix
            (getXyzToStuTransformation (MBoundingBox.empty : MBoundingBox ℚ)).asMatrixInverse
            (deformLattice ⟨1, 2, 3⟩ ⟨-4, 1, 0⟩ ⟨5, 0, 7⟩) 1)) := by
    simp [deform, getBoundingBox, sampleBlock]
  refine ⟨rfl, hbox, ?_, hrun, ?_⟩
  · rw [hbox]; decide
  · rw [hrun]; decide

/-- C14, amended. When the bounding-source point list is empty, `getBoundingBox` returns
the status of obtaining the mesh: if the mesh could not be obtained it returns a failure
status and leaves the caller's box as it was, and `deform` returns failure with no point
updated; if the mesh was obtained it succeeds with the default empty box. -/
theorem getBoundingBox_empty {K : Type} [LinearOrderedField K] (block : MDataBlock K)
    (hempty : block.meshPoints = []) (boundingBoxOut : MBoundingBox K)
    (iter : List (MPoint K)) :
    (block.meshStatus ≠ MStatus.kSuccess →
      getBoundingBox block boundingBoxOut = (MStatus.kFailure, boundingBoxOut) ∧
      deform block iter = (MStatus.kFailure, iter)) ∧
    (block.meshStatus = MStatus.kSuccess →
      getBoundingBox block boundingBoxOut = (MStatus.kSuccess, MBoundingBox.empty)) := by
  refine ⟨fun hmesh => ⟨?_, deform_mesh_failure block hmesh iter⟩, fun hmesh => ?_⟩
  · have hne : MStatus.kSuccess ≠ block.meshStatus := fun h => hmesh h.symm
    simp [getBoundingBox, hne]
  · simp [getBoundingBox, hmesh, hempty]

/-- C14, amended, on a block whose mesh could not be obtained (`kFailure`) and has no
points: `deform` fails and the three points keep their positions. -/
theorem getBoundingBox_empty_witness :
    (⟨MStatus.kSuccess, ⟨1, 2, 3⟩, MStatus.kSuccess, ⟨-4, 1, 0⟩, MStatus.kSuccess, ⟨5, 0, 7⟩,
        MStatus.kSuccess, 1, MStatus.kFailure, []⟩ : MDataBlock ℚ).meshPoints = [] ∧
    deform (⟨MStatus.kSuccess, ⟨1, 2, 3⟩, MStatus.kSuccess, ⟨-4, 1, 0⟩, MStatus.kSuccess,
        ⟨5, 0, 7⟩, MStatus.kSuccess, 1, MStatus.kFailure, []⟩ : MDataBlock ℚ) sampleMesh
      = (MStatus.kFailure, sampleMesh) :=
  ⟨rfl, ((getBoundingBox_empty _ rfl MBoundingBox.empty sampleMesh).1 (by decide)).2⟩

/-! ## C15: the divisions in `nChooseK` -/

/-- C15 fails as stated: at `n = 30`, `k = 15` (`k' = 15`), iteration `i = 15`, the variable
`c` is `77558760`, the product `c * 30` does not fit the 32-bit `int` and is stored as
`-1968204496`, which is not divisible by `15` (remainder `-1`), and after the iteration `c`
is `-131213633`, not `C(30, 15) = 155117520`. -/
theorem nChooseK_exact_division_counterexample :
    (15 : ℕ) ≤ 30 ∧ min 15 (30 - 15) = 15 ∧
    nChooseK 30 15 = nChooseKLoop 30 15 15 ∧
    nChooseKLoop 30 15 14 = 77558760 ∧
    nChooseKProduct 30 15 14 = -1968204496 ∧
    (nChooseKProduct 30 15 14).tmod 15 = -1 ∧
    ¬ ((15 : ℤ) ∣ nChooseKProduct 30 15 14) ∧
    nChooseKLoop 30 15 15 = -131213633 ∧
    nChooseKLoop 30 15 15 ≠ ((Nat.choose (30 - 15 + 15) 15 : ℕ) : ℤ) := by
  have hc : nChooseKLoop 30 15 15 = -131213633 := by decide!
  have hp : nChooseKProduct 30 15 14 = -1968204496 := by decide!
  refine ⟨by decide, by decide, by decide!, by decide!, hp, ?_, ?_, hc, ?_⟩
  · rw [hp]; decide
  · rw [hp]; decide
  · rw [hc, show 30 - 15 + 15 = 30 from rfl, choose_thirty_fifteen]
    decide

/-- C15, amended. Exact intermediate division in `nChooseK`: for every `0 ≤ k ≤ n ≤ 29`,
with `k' = min(k, n - k)`, at every loop iteration `i` in `1..k'` the product
`c * (n - (k' - i))` fits the 32-bit `int` and is divisible by `i` (the integer division by
`i` has remainder `0`), and after iteration `i` the variable `c` is the binomial coefficient
`C(n - k' + i, i)`; no truncation occurs. -/
theorem nChooseK_exact_division (n k : ℕ) (hk : k ≤ n) (hn : n ≤ 29) :
    nChooseK (n : ℤ) (k : ℤ)
      = nChooseKLoop (n : ℤ) ((min k (n - k) : ℕ) : ℤ) (min k (n - k)) ∧
    ∀ i : ℕ, 1 ≤ i → i ≤ min k (n - k) →
      nChooseKProduct (n : ℤ) ((min k (n - k) : ℕ) : ℤ) (i - 1)
        = nChooseKLoop (n : ℤ) ((min k (n - k) : ℕ) : ℤ) (i - 1)
          * ((n : ℤ) - (((min k (n - k) : ℕ) : ℤ) - (i : ℤ))) ∧
      (i : ℤ) ∣ nChooseKLoop (n : ℤ) ((min k (n - k) : ℕ) : ℤ) (i - 1)
          * ((n : ℤ) - (((min k (n - k) : ℕ) : ℤ) - (i : ℤ))) ∧
      (nChooseKLoop (n : ℤ) ((min k (n - k) : ℕ) : ℤ) (i - 1)
          * ((n : ℤ) - (((min k (n - k) : ℕ) : ℤ) - (i : ℤ)))).tmod (i : ℤ) = 0 ∧
      nChooseKLoop (n : ℤ) ((min k (n - k) : ℕ) : ℤ) i
        = ((n - min k (n - k) + i).choose i : ℕ) ∧
      nChooseKLoop (n : ℤ) ((min k (n - k) : ℕ) : ℤ) i * (i : ℤ)
        = nChooseKLoop (n : ℤ) ((min k (n - k) : ℕ) : ℤ) (i - 1)
          * ((n : ℤ) - (((min k (n - k) : ℕ) : ℤ) - (i : ℤ))) := by
  have hcheck := nChooseKLoop_int32_check ⟨n, by omega⟩ ⟨k, by omega⟩ hk
  refine ⟨hcheck.1, ?_⟩
  intro i hi1 hik
  have hkn : min k (n - k) ≤ n := le_trans (min_le_left _ _) hk
  have hk15 : min k (n - k) < 16 := by
    have h1 : min k (n - k) ≤ n - k := min_le_right _ _
    have h2 : min k (n - k) ≤ k := min_le_left _ _
    omega
  obtain ⟨m, rfl⟩ : ∃ m, i = m + 1 := ⟨i - 1, by omega⟩
  have hm : m < 15 := by omega
  -- the source's values are those of the recurrence on unbounded integers
  have hcur := hcheck.2 ⟨m, hm⟩ (by simpa using hik)
  have hcodeprev : nChooseKLoop (n : ℤ) ((min k (n - k) : ℕ) : ℤ) m
      = nChooseKLoopExact (n : ℤ) ((min k (n - k) : ℕ) : ℤ) m := by
    cases m with
    | zero => rfl
    | succ j => exact (hcheck.2 ⟨j, by omega⟩ (by simp only; omega)).2
  have hprev := nChooseKLoopExact_eq_choose n (min k (n - k)) hkn m (by omega)
  have hnext := nChooseKLoopExact_eq_choose n (min k (n - k)) hkn (m + 1) hik
  have hfac : (n : ℤ) - (((min k (n - k) : ℕ) : ℤ) - ((m + 1 : ℕ) : ℤ))
      = ((n - min k (n - k) + m + 1 : ℕ) : ℤ) := by
    push_cast [Nat.cast_sub hkn]
    ring
  have hmul : (((n - min k (n - k) + m).choose m : ℕ) : ℤ)
        * ((n - min k (n - k) + m + 1 : ℕ) : ℤ)
      = (((n - min k (n - k) + (m + 1)).choose (m + 1) : ℕ) : ℤ) * ((m + 1 : ℕ) : ℤ) := by
    have h := Nat.succ_mul_choose_eq (n - min k (n - k) + m) m
    have h2 : (n - min k (n - k) + m).choose m * (n - min k (n - k) + m + 1)
        = (n - min k (n - k) + (m + 1)).choose (m + 1) * (m + 1) := by
      rw [Nat.mul_comm]
      exact h
    exact_mod_cast h2
  have hprod : nChooseKLoop (n : ℤ) ((min k (n - k) : ℕ) : ℤ) (m + 1 - 1)
        * ((n : ℤ) - (((min k (n - k) : ℕ) : ℤ) - ((m + 1 : ℕ) : ℤ)))
      = (((n - min k (n - k) + (m + 1)).choose (m + 1) : ℕ) : ℤ) * ((m + 1 : ℕ) : ℤ) := by
    rw [Nat.add_sub_cancel, hcodeprev, hprev, hfac, hmul]
  have hcodenext : nChooseKLoop (n : ℤ) ((min k (n - k) : ℕ) : ℤ) (m + 1)
      = (((n - min k (n - k) + (m + 1)).choose (m + 1) : ℕ) : ℤ) := by
    rw [← hnext]
    exact hcur.2
  refine ⟨?_, ?_, ?_, hcodenext, ?_⟩
  · rw [Nat.add_sub_cancel, hcodeprev]
    have h := hcur.1
    simp only [Nat.cast_add, Nat.cast_one] at h ⊢
    exact h
  · rw [hprod]
    exact Dvd.intro_left _ rfl
  · rw [hprod]
    exact Int.mul_tmod_left _ _
  · rw [hprod, hcodenext]

/-- C15, amended, at `n = 10`, `k = 7` (`k' = 3`), iteration `i = 3`: the product
`36 * 10 = 360` is divisible by `3` and `c` becomes `C(10, 3) = 120`. -/
theorem nChooseK_exact_division_witness :
    (7 : ℕ) ≤ 10 ∧ (10 : ℕ) ≤ 29 ∧ (1 : ℕ) ≤ 3 ∧ (3 : ℕ) ≤ min 7 (10 - 7) ∧
    nChooseKLoop ((10 : ℕ) : ℤ) ((min 7 (10 - 7) : ℕ) : ℤ) 3
      = ((10 - min 7 (10 - 7) + 3).choose 3 : ℕ) ∧
    nChooseKLoop 10 3 2 * (10 - (3 - 3)) = 360 ∧ nChooseKLoop 10 3 3 = 120 :=
  ⟨by decide, by decide, by decide, by decide,
    ((nChooseK_exact_division 10 7 (by decide) (by decide)).2 3 (by decide)
      (by decide)).2.2.2.1,
    by decide!, by decide!⟩

/-! ## C17: `nChooseK` in 32-bit arithmetic -/

/-- C17. 32-bit safety of `nChooseK`: for every `0 ≤ k ≤ n ≤ 29`, with
`k' = min(k, n - k)` the value of `k` in the loop, every intermediate value of `c` (the
product `c * (n - (k' - i))` before the division and the quotient after it) lies in
`[0, 2^31 - 1]`, so that the values stored by the 32-bit loop are those of the recurrence on
unbounded integers, and the result computed with signed 32-bit `int` is the exact binomial
coefficient. -/
theorem nChooseK_int32_safe (n k : ℕ) (hk : k ≤ n) (hn : n ≤ 29) :
    (∀ i : ℕ, 1 ≤ i → i ≤ min k (n - k) →
      0 ≤ nChooseKLoopExact (n : ℤ) ((min k (n - k) : ℕ) : ℤ) (i - 1)
            * ((n : ℤ) - (((min k (n - k) : ℕ) : ℤ) - (i : ℤ))) ∧
      nChooseKLoopExact (n : ℤ) ((min k (n - k) : ℕ) : ℤ) (i - 1)
            * ((n : ℤ) - (((min k (n - k) : ℕ) : ℤ) - (i : ℤ))) ≤ 2 ^ 31 - 1 ∧
      0 ≤ nChooseKLoopExact (n : ℤ) ((min k (n - k) : ℕ) : ℤ) i ∧
      nChooseKLoopExact (n : ℤ) ((min k (n - k) : ℕ) : ℤ) i ≤ 2 ^ 31 - 1 ∧
      nChooseKProduct (n : ℤ) ((min k (n - k) : ℕ) : ℤ) (i - 1)
        = nChooseKLoopExact (n : ℤ) ((min k (n - k) : ℕ) : ℤ) (i - 1)
            * ((n : ℤ) - (((min k (n - k) : ℕ) : ℤ) - (i : ℤ))) ∧
      nChooseKLoop (n : ℤ) ((min k (n - k) : ℕ) : ℤ) i
        = nChooseKLoopExact (n : ℤ) ((min k (n - k) : ℕ) : ℤ) i) ∧
    nChooseK (n : ℤ) (k : ℤ) = nChooseKExact (n : ℤ) (k : ℤ) ∧
    nChooseK (n : ℤ) (k : ℤ) = (n.choose k : ℕ) := by
  have hcheck := nChooseK_int32_check ⟨n, by omega⟩ ⟨k, by omega⟩ hk
  have hloop := nChooseKLoop_int32_check ⟨n, by omega⟩ ⟨k, by omega⟩ hk
  refine ⟨?_, hcheck.1, ?_⟩
  · intro i hi1 hik
    obtain ⟨m, rfl⟩ : ∃ m, i = m + 1 := ⟨i - 1, by omega⟩
    have hm : m < 15 := by
      have : min k (n - k) ≤ n - k := min_le_right _ _
      have : min k (n - k) ≤ k := min_le_left _ _
      omega
    have h := hcheck.2 ⟨m, hm⟩ (by simpa using hik)
    have h2 := hloop.2 ⟨m, hm⟩ (by simpa using hik)
    simp only [Nat.add_sub_cancel, Nat.cast_add, Nat.cast_one] at h h2 ⊢
    exact ⟨h.1, h.2.1, h.2.2.1, h.2.2.2, h2.1, h2.2⟩
  · rw [hcheck.1]
    exact nChooseKExact_natCast n k

/-- C17 at `n = 29`, `k = 14`: the 32-bit computation gives `C(29, 14) = 77558760`. -/
theorem nChooseK_int32_safe_witness :
    (14 : ℕ) ≤ 29 ∧ (29 : ℕ) ≤ 29 ∧
    nChooseK ((29 : ℕ) : ℤ) ((14 : ℕ) : ℤ) = ((Nat.choose 29 14 : ℕ) : ℤ) ∧
    nChooseK 29 14 = 77558760 :=
  ⟨by decide, by decide, (nChooseK_int32_safe 29 14 (by decide) (by decide)).2.2, by decide!⟩

end ffdPlanar
